import Mathlib

/-!
Verification of the survey-propagation solver (`src/src/Algorithms.cpp`).

The algorithms `SurveyPropagation`, `UpdateSurvey`, `UnitPropagation`,
`Walksat`, `SID` and `EvaluateVariable` are embedded from the source file
`src/src/Algorithms.cpp`.  The supporting data model (`FactorGraph`,
`Clause`, `Variable`, `Edge`, the enabled views, the random source and the
configuration constants) lives in headers that are not part of the sources,
so those parts are modelled from the specification (spec §3, §4.1, §4.2,
§6).  Real-valued quantities (`survey`, `evalValue`) are modelled with exact
rationals; the IEEE `0/0 = NaN` cases checked by the code are the cases in
which the corresponding denominator vanishes, which over the nonnegative
operands arising here coincides with the exact-arithmetic test used below.
C++ mutation of the graph is modelled by explicit state passing; undefined
behaviour (null-pointer dereference, `uniform_int_distribution` with an
empty range, out-of-bounds vector indexing) is modelled by `Option`-style
failure values.
-/

namespace sat

/-- Modelled from the spec (§3 Data model): a variable has a boolean
`value`, an `assigned` flag and a rational `evalValue` (its latest
SP-derived bias). -/
structure Variable where
  value : Bool
  assigned : Bool
  evalValue : ℚ
deriving DecidableEq

instance : Inhabited Variable := ⟨⟨false, false, 0⟩⟩

/-- Modelled from the spec (§3 Data model): a clause carries an `enabled`
flag. -/
structure Clause where
  enabled : Bool
deriving DecidableEq

instance : Inhabited Clause := ⟨⟨false⟩⟩

/-- Modelled from the spec (§3 Data model): an edge joins one clause and
one variable, with a literal `type` (true = unnegated), an `enabled` flag
and a rational `survey`. -/
structure Edge where
  clauseId : Nat
  varId : Nat
  type : Bool
  enabled : Bool
  survey : ℚ
deriving DecidableEq

instance : Inhabited Edge := ⟨⟨0, 0, true, false, 0⟩⟩

/-- Modelled from the spec (§3, §9): the factor graph as three arenas
addressed by indices. -/
structure FactorGraph where
  vars : List Variable
  clauses : List Clause
  edges : List Edge
deriving DecidableEq

namespace FactorGraph

/-- Variable arena lookup (out-of-range reads give the default record,
which is unassigned / disabled, so they never satisfy an enabledness
predicate). -/
def varAt (g : FactorGraph) (v : Nat) : Variable := g.vars.getD v default

/-- Clause arena lookup. -/
def clauseAt (g : FactorGraph) (c : Nat) : Clause := g.clauses.getD c default

/-- Edge arena lookup. -/
def edgeAt (g : FactorGraph) (e : Nat) : Edge := g.edges.getD e default

/-- Modelled from the spec (§3 invariant 2): an edge is effectively present
iff its own flag and its clause's flag are set. -/
def edgeEnabledB (g : FactorGraph) (e : Nat) : Bool :=
  (g.edgeAt e).enabled && (g.clauseAt (g.edgeAt e).clauseId).enabled

/-- Modelled from the spec (§4.2 `enabledEdgesGlobal`): all effectively
present edges (edge flag and clause flag both set). -/
def GetEnabledEdges (g : FactorGraph) : List Nat :=
  (List.range g.edges.length).filter g.edgeEnabledB

/-- Modelled from the spec (§4.2 `enabledEdgesOfClause`): the enabled edges
of clause `c` (`Clause::GetEnabledEdges` in the code). -/
def clauseEnabledEdges (g : FactorGraph) (c : Nat) : List Nat :=
  (List.range g.edges.length).filter
    (fun e => (g.edgeAt e).enabled && ((g.edgeAt e).clauseId == c))

/-- Modelled from the spec (§4.2 `enabledEdgesOfVariable`): the enabled
edges incident to variable `v` whose clause is still enabled
(`Variable::GetEnabledEdges` in the code). -/
def varEnabledEdges (g : FactorGraph) (v : Nat) : List Nat :=
  (List.range g.edges.length).filter
    (fun e => (g.edgeAt e).enabled
      && (g.clauseAt (g.edgeAt e).clauseId).enabled
      && ((g.edgeAt e).varId == v))

/-- Modelled from the spec (§4.2 `enabledClauses`). -/
def GetEnabledClauses (g : FactorGraph) : List Nat :=
  (List.range g.clauses.length).filter (fun c => (g.clauseAt c).enabled)

/-- Modelled from the spec (§4.2 `unassignedVariables`). -/
def GetUnassignedVariables (g : FactorGraph) : List Nat :=
  (List.range g.vars.length).filter (fun v => !(g.varAt v).assigned)

/-- Modelled from the spec (§4.2 `assignVariable`): sets `assigned` and
`value`; does not itself propagate (`Variable::AssignValue`). -/
def assignVar (g : FactorGraph) (v : Nat) (b : Bool) : FactorGraph :=
  { g with vars := g.vars.set v { g.varAt v with value := b, assigned := true } }

/-- Modelled from the spec (§4.2 `disableEdge`, `Edge::Dissable`). -/
def disableEdge (g : FactorGraph) (e : Nat) : FactorGraph :=
  { g with edges := g.edges.set e { g.edgeAt e with enabled := false } }

/-- Modelled from the spec (§4.2 `disableClause`, `Clause::Dissable`). -/
def disableClause (g : FactorGraph) (c : Nat) : FactorGraph :=
  { g with clauses := g.clauses.set c { g.clauseAt c with enabled := false } }

/-- Modelled from the spec (§4.2 IsSAT, clause side, `Clause::IsSAT`): a
clause is satisfied iff one of its enabled edges has an assigned variable
with `value == type`. -/
def clauseIsSAT (g : FactorGraph) (c : Nat) : Bool :=
  (g.clauseEnabledEdges c).any
    (fun e => (g.varAt (g.edgeAt e).varId).assigned
      && ((g.varAt (g.edgeAt e).varId).value == (g.edgeAt e).type))

/-- Modelled from the spec (§4.2 IsSAT): every clause is either disabled or
contains a satisfied enabled edge (`FactorGraph::IsSAT`). -/
def IsSAT (g : FactorGraph) : Bool :=
  (List.range g.clauses.length).all
    (fun c => !(g.clauseAt c).enabled || g.clauseIsSAT c)

/-- Modelled from the spec (§4.2 construction from DIMACS, §6): one
variable record per declared variable, one clause per clause line, one edge
per literal with `survey = 0`, `enabled = true`; literal `l` gives variable
index `|l| - 1` and edge type `l > 0`. -/
def fromDimacs (numVars : Nat) (cls : List (List Int)) : FactorGraph :=
  { vars := List.replicate numVars default
    clauses := cls.map (fun _ => ⟨true⟩)
    edges := (cls.enum.map (fun p =>
      p.2.map (fun l => Edge.mk p.1 (l.natAbs - 1) (decide (0 < l)) true 0))).flatten }

end FactorGraph

/-- Modelled from the spec (§4.1 Random source): a deterministic stream of
raw draws together with a cursor.  Every random primitive reads the draw at
the cursor and advances it, so all algorithmic randomness is a function of
the stream and the cursor. -/
structure Rng where
  seq : Nat → Nat
  idx : Nat

/-- Advance the random source by one raw draw. -/
def Rng.advance (r : Rng) : Rng := { r with idx := r.idx + 1 }

/-- The raw draw currently under the cursor. -/
def Rng.current (r : Rng) : Nat := r.seq r.idx

/-- Modelled from the spec (§4.1): granularity of the real draws. -/
def rngDenom : Nat := 2 ^ 32

/-- Modelled from the spec (§4.1 `real01`): a rational in `[0,1)`. -/
def getRandomReal01 (r : Rng) : ℚ × Rng :=
  (((r.current % rngDenom : Nat) : ℚ) / (rngDenom : ℚ), r.advance)

/-- Modelled from the spec (§4.1 `bool`). -/
def getRandomBool (r : Rng) : Bool × Rng :=
  (r.current % 2 == 1, r.advance)

/-- Modelled from the spec (§4.1 `uniformInt lo hi`, inclusive): the C++
`std::uniform_int_distribution` has undefined behaviour when `hi < lo`
(e.g. the empty-range `(0, -1)` case), modelled by `none`. -/
def uniformInt (r : Rng) (lo hi : Int) : Option (Int × Rng) :=
  if hi < lo then none
  else some (lo + (r.current % (hi + 1 - lo).toNat : Nat), r.advance)

/-- Swap two positions of a list (out-of-range indices leave it unchanged
on that side). -/
def swapAt (l : List Nat) (i j : Nat) : List Nat :=
  (l.set i (l.getD j 0)).set j (l.getD i 0)

/-- One Fisher–Yates step at position `i`: draw `j ∈ [0, i]` and swap. -/
def shuffleStep (p : List Nat × Rng) (i : Nat) : List Nat × Rng :=
  (swapAt p.1 i (p.2.current % (i + 1)), p.2.advance)

/-- Modelled from the spec (§4.1 shuffle-in-place primitive,
`std::shuffle`): Fisher–Yates from the top index down to 1. -/
def shuffleList (r : Rng) (l : List Nat) : List Nat × Rng :=
  ((List.range l.length).reverse.filter (fun i => i != 0)).foldl
    shuffleStep (l, r)

/-- Modelled from the spec (§6 configuration constants): SP iteration cap,
default 1000. -/
def SP_MAX_ITERATIONS : Nat := 1000

/-- Modelled from the spec (§6): SP convergence threshold, default 0.01. -/
def SP_EPSILON : ℚ := 1 / 100

/-- Modelled from the spec (§4.5): WalkSAT tries, default 10. -/
def WS_MAX_TRIES : Nat := 10

/-- Modelled from the spec (§4.5): WalkSAT flips per try (the spec suggests
`numVars · 100` as the build-time default; a fixed representative value is
used here). -/
def WS_MAX_FLIPS : Nat := 100

/-- Modelled from the spec (§4.5): WalkSAT noise, default about 0.57. -/
def WS_NOISE : ℚ := 57 / 100

/-- The absolute value on rationals, as computed by `std::abs` on doubles
(kernel-computable; equal to `|q|`, see `ratAbs_eq_abs`). -/
def ratAbs (q : ℚ) : ℚ := if q < 0 then -q else q

/-- Write a survey value (the mutation `edge->survey = ...`). -/
def FactorGraph.setSurvey (g : FactorGraph) (e : Nat) (q : ℚ) : FactorGraph :=
  { g with edges := g.edges.set e { g.edgeAt e with survey := q } }

/-- The mutation `AssignValue(!value)` used by the WalkSAT flips. -/
def FactorGraph.flipVar (g : FactorGraph) (v : Nat) : FactorGraph :=
  g.assignVar v (!(g.varAt v).value)

/-- Embedded from `Algorithms.cpp` (lines 56-74 and 346-361): one pass over
a list of edges computing the three products of `1 - survey`, restricted to
the edges whose type equals the reference type `t`, to those whose type
differs, and over all of them. -/
def survProds (g : FactorGraph) (t : Bool) (es : List Nat) : ℚ × ℚ × ℚ :=
  es.foldl (fun p e =>
    let f := 1 - (g.edgeAt e).survey
    ((if (g.edgeAt e).type == t then p.1 * f else p.1),
     (if (g.edgeAt e).type != t then p.2.1 * f else p.2.1),
     p.2.2 * f)) (1, 1, 1)

/-- Embedded from `Algorithms.cpp` (lines 52-79): for a neighbour edge
`a→j` of the edge being updated, the equation (26) triple
`(Pu_aj, Ps_aj, P0_aj)`, built from the products over the edges `b→j`
(`b ≠ a`) of variable `j`. -/
def neighbourTerms (g : FactorGraph) (aj : Nat) : ℚ × ℚ × ℚ :=
  let bjs := (g.varEnabledEdges (g.edgeAt aj).varId).filter (fun b => b != aj)
  let p := survProds g (g.edgeAt aj).type bjs
  ((1 - p.2.1) * p.1, (1 - p.1) * p.2.1, p.2.2)

/-- Embedded from `Algorithms.cpp` (lines 49-92): the product of the
equation (27) ratios over the neighbour edges, with the `std::isnan` check:
a `0/0` ratio (numerator and denominator both zero — over IEEE doubles the
only NaN case arising from the nonnegative finite operands used here) sets
the survey to 0 and breaks out of the loop. -/
def surveyProd (g : FactorGraph) : List Nat → ℚ → ℚ
  | [], s => s
  | aj :: rest, s =>
    let t := neighbourTerms g aj
    let den := t.1 + t.2.1 + t.2.2
    if t.1 = 0 ∧ den = 0 then 0
    else surveyProd g rest (s * (t.1 / den))

/-- Embedded from `Algorithms.cpp` (lines 47-96, `UpdateSurvey`): update
the survey of edge `a→i` from the other enabled edges of its clause. -/
def UpdateSurvey (g : FactorGraph) (ai : Nat) : FactorGraph :=
  let ajs := (g.clauseEnabledEdges (g.edgeAt ai).clauseId).filter (fun a => a != ai)
  g.setSurvey ai (surveyProd g ajs 1)

/-- Modelled from the spec (§4.3): the SP result record. -/
structure SPResult where
  converged : Bool
  iterations : Nat
deriving DecidableEq

/-- Embedded from `Algorithms.cpp` (lines 30-39): one sweep updating every
edge of the (already shuffled) list in order; the boolean is the
`allEdgesConverged` flag of the sweep. -/
def spSweep (g : FactorGraph) (es : List Nat) : FactorGraph × Bool :=
  es.foldl (fun p e =>
    let prev := (p.1.edgeAt e).survey
    let g1 := UpdateSurvey p.1 e
    (g1, p.2 && decide (ratAbs ((g1.edgeAt e).survey - prev) < SP_EPSILON))) (g, true)

/-- Embedded from `Algorithms.cpp` (lines 22-42): the bounded sweep loop;
`fuel` is the number of remaining sweeps, `total` the executed ones.  The
shuffle permutes the current edge list in place, so the shuffled list is
threaded into the recursive call. -/
def spLoop : Nat → List Nat → FactorGraph → Rng → Nat → FactorGraph × Rng × SPResult
  | 0, _, g, rng, total => (g, rng, ⟨false, total⟩)
  | fuel + 1, es, g, rng, total =>
    let sh := shuffleList rng es
    let sw := spSweep g sh.1
    if sw.2 then (sw.1, sh.2, ⟨true, total + 1⟩)
    else spLoop fuel sh.1 sw.1 sh.2 (total + 1)

/-- Embedded from `Algorithms.cpp` (lines 16-20): random initialisation of
the surveys of the listed edges. -/
def spInit (g : FactorGraph) (rng : Rng) (es : List Nat) : FactorGraph × Rng :=
  es.foldl (fun p e =>
    let d := getRandomReal01 p.2
    (p.1.setSurvey e d.1, d.2)) (g, rng)

/-- Embedded from `Algorithms.cpp` (lines 15-45, `SurveyPropagation`). -/
def SurveyPropagation (g : FactorGraph) (rng : Rng) : FactorGraph × Rng × SPResult :=
  let es := g.GetEnabledEdges
  let p := spInit g rng es
  spLoop SP_MAX_ITERATIONS es p.1 p.2 0

/-- Embedded from `Algorithms.cpp` (lines 104-108): the enabled clauses
with exactly one enabled edge, paired with that edge.  (`AssignValue` does
not change edge or clause flags, so pairing the unit edge up front matches
the code re-reading `GetEnabledEdges()[0]` inside the assignment loop.) -/
def unitClauses (g : FactorGraph) : List (Nat × Nat) :=
  g.GetEnabledClauses.filterMap (fun c =>
    match g.clauseEnabledEdges c with
    | [e] => some (c, e)
    | _ => none)

/-- Embedded from `Algorithms.cpp` (lines 115-127): assign the variable of
each unit clause to its edge type; `none` models the `return false` on a
conflicting existing assignment. -/
def assignUnits : FactorGraph → List (Nat × Nat) → Option FactorGraph
  | g, [] => some g
  | g, u :: rest =>
    let ed := g.edgeAt u.2
    if !(g.varAt ed.varId).assigned then
      assignUnits (g.assignVar ed.varId ed.type) rest
    else if ed.type != (g.varAt ed.varId).value then none
    else assignUnits g rest

/-- Embedded from `Algorithms.cpp` (lines 131-146): iterate a snapshot of
the enabled edges of clause `c`: a satisfied assigned literal disables the
clause and breaks, a falsified assigned literal disables that edge. -/
def cleanClauseEdges : FactorGraph → Nat → List Nat → FactorGraph
  | g, _, [] => g
  | g, c, e :: rest =>
    let ed := g.edgeAt e
    if (g.varAt ed.varId).assigned then
      if ed.type == (g.varAt ed.varId).value then g.disableClause c
      else cleanClauseEdges (g.disableEdge e) c rest
    else cleanClauseEdges g c rest

/-- Embedded from `Algorithms.cpp` (lines 130-152): process every enabled
clause of the snapshot; `none` models the empty-clause contradiction
(`return false` at line 151). -/
def cleanClauses : FactorGraph → List Nat → Option FactorGraph
  | g, [] => some g
  | g, c :: rest =>
    let g1 := cleanClauseEdges g c (g.clauseEnabledEdges c)
    if (g1.clauseAt c).enabled && ((g1.clauseEnabledEdges c).length == 0) then none
    else cleanClauses g1 rest

/-- Result of one iteration of the outer loop of `UnitPropagation`. -/
inductive UPStep where
  | success (g : FactorGraph)
  | contradiction (g : FactorGraph)
  | next (g : FactorGraph)

/-- Embedded from `Algorithms.cpp` (lines 101-156): one iteration of the
outer `while (true)` loop of `UnitPropagation`. -/
def upIteration (g : FactorGraph) : UPStep :=
  let units := unitClauses g
  if units.isEmpty then .success g
  else
    match assignUnits g units with
    | none => .contradiction g
    | some g1 =>
      match cleanClauses g1 g1.GetEnabledClauses with
      | none => .contradiction g1
      | some g2 => .next g2

/-- The number of effectively enabled edges. -/
def enabledEdgeCount (g : FactorGraph) : Nat := g.GetEnabledEdges.length

/-- The number of unassigned variables. -/
def unassignedCount (g : FactorGraph) : Nat := g.GetUnassignedVariables.length

/-- The termination measure of `UnitPropagation` (spec §4.4). -/
def upMeasure (g : FactorGraph) : Nat := enabledEdgeCount g + unassignedCount g

/-- The outer loop of `UnitPropagation` with explicit fuel. -/
def upRun : Nat → FactorGraph → Option (Bool × FactorGraph)
  | 0, _ => none
  | fuel + 1, g =>
    match upIteration g with
    | .success g1 => some (true, g1)
    | .contradiction g1 => some (false, g1)
    | .next g1 => upRun fuel g1

/-- Embedded from `Algorithms.cpp` (lines 101-156, `UnitPropagation`): the
outer loop, run with enough fuel (the measure strictly decreases at every
`next` step, so the fuel is never exhausted). -/
def UnitPropagation (g : FactorGraph) : Option (Bool × FactorGraph) :=
  upRun (upMeasure g + 1) g

/-- Embedded from `Algorithms.cpp` (lines 167-169): assign each variable of
the list a fresh random boolean. -/
def wsAssign : List Nat → FactorGraph → Rng → FactorGraph × Rng
  | [], g, rng => (g, rng)
  | v :: rest, g, rng =>
    let d := getRandomBool rng
    wsAssign rest (g.assignVar v d.1) d.2

/-- Embedded from `Algorithms.cpp` (lines 199-219): the break-count loop
over the selected clause's edges.  Each candidate variable is flipped, the
still-satisfied clauses are re-scanned, and the variable is flipped back;
the running best (`lowestBreakCountVar`, `lowestBreakCount`) is updated,
and a break-count of 0 breaks out early.  The null `lowestBreakCountVar`
is modelled by `none`. -/
def breakCountLoop (satCs : List Nat) :
    FactorGraph → List Nat → Option Nat → Nat → FactorGraph × Option Nat × Nat
  | g, [], low, lowCount => (g, low, lowCount)
  | g, e :: rest, low, lowCount =>
    let v := (g.edgeAt e).varId
    let gf := g.flipVar v
    let bc := (satCs.filter (fun c => !(gf.clauseIsSAT c))).length
    let g1 := gf.flipVar v
    let best := if low.isNone || bc < lowCount then (some v, bc) else (low, lowCount)
    if bc == 0 then (g1, best.1, best.2)
    else breakCountLoop satCs g1 rest best.1 best.2

/-- Outcome of one WalkSAT flip step. -/
inductive WSFlip where
  | sat (g : FactorGraph) (rng : Rng)
  | cont (g : FactorGraph) (rng : Rng)
  | crash

/-- Embedded from `Algorithms.cpp` (lines 172-241): one iteration of the
flip loop.  `crash` marks the undefined behaviour reachable when the
selected unsatisfied clause has no enabled edges: the null
`lowestBreakCountVar` dereference at line 225/229, or the empty-range
`uniform_int_distribution(0, -1)` at line 233. -/
def wsFlipStep (g : FactorGraph) (rng : Rng) : WSFlip :=
  if g.IsSAT then .sat g rng
  else
    let satCs := g.GetEnabledClauses.filter (fun c => g.clauseIsSAT c)
    let unsatCs := g.GetEnabledClauses.filter (fun c => !g.clauseIsSAT c)
    match uniformInt rng 0 ((unsatCs.length : Int) - 1) with
    | none => .crash
    | some d =>
      let sces := g.clauseEnabledEdges (unsatCs.getD d.1.toNat 0)
      let bcl := breakCountLoop satCs g sces none (satCs.length + 1)
      match bcl.2.1, bcl.2.2 with
      | some v, 0 => .cont ((bcl.1).flipVar v) d.2
      | none, 0 => .crash
      | best, _ + 1 =>
        let r := getRandomReal01 d.2
        if WS_NOISE < r.1 then
          match best with
          | some v => .cont ((bcl.1).flipVar v) r.2
          | none => .crash
        else
          match uniformInt r.2 0 ((sces.length : Int) - 1) with
          | none => .crash
          | some d2 =>
            .cont ((bcl.1).flipVar ((bcl.1).edgeAt (sces.getD d2.1.toNat 0)).varId) d2.2

/-- Embedded from `Algorithms.cpp` (lines 172-241): the flip loop; `none`
models undefined behaviour, `some (true, ..)` the SAT early return,
`some (false, ..)` flip exhaustion. -/
def wsFlips : Nat → FactorGraph → Rng → Option (Bool × FactorGraph × Rng)
  | 0, g, rng => some (false, g, rng)
  | f + 1, g, rng =>
    match wsFlipStep g rng with
    | .sat g1 r1 => some (true, g1, r1)
    | .cont g1 r1 => wsFlips f g1 r1
    | .crash => none

/-- Embedded from `Algorithms.cpp` (lines 165-241): one try — the
assignment phase over the variables currently unassigned, then the flip
loop. -/
def wsTry (g : FactorGraph) (rng : Rng) : Option (Bool × FactorGraph × Rng) :=
  let p := wsAssign g.GetUnassignedVariables g rng
  wsFlips WS_MAX_FLIPS p.1 p.2

/-- Embedded from `Algorithms.cpp` (lines 165-242): the try loop. -/
def wsTries : Nat → FactorGraph → Rng → Option (Bool × FactorGraph × Rng)
  | 0, g, rng => some (false, g, rng)
  | t + 1, g, rng =>
    match wsTry g rng with
    | some (true, g1, r1) => some (true, g1, r1)
    | some (false, g1, r1) => wsTries t g1 r1
    | none => none

/-- Embedded from `Algorithms.cpp` (lines 161-246, `Walksat`). -/
def Walksat (g : FactorGraph) (rng : Rng) : Option (Bool × FactorGraph × Rng) :=
  wsTries WS_MAX_TRIES g rng

/-- Embedded from `Algorithms.cpp` (lines 341-376, `EvaluateVariable`):
store the bias `W+ - W-` into `evalValue`; the 0/0 case (`isnan`), which
over the nonnegative operands used here is exactly the vanishing of the
common denominator, is coerced to 0. -/
def EvaluateVariable (g : FactorGraph) (v : Nat) : FactorGraph :=
  let p := survProds g true (g.varEnabledEdges v)
  let PiP := (1 - p.1) * p.2.1
  let PiN := (1 - p.2.1) * p.1
  let Pi0 := p.2.2
  let den := PiP + PiN + Pi0
  let ev := if den = 0 then 0 else PiP / den - PiN / den
  { g with vars := g.vars.set v { g.varAt v with evalValue := ev } }

/-- Embedded from `Algorithms.cpp` (lines 290-297): evaluate every
unassigned variable. -/
def evaluateAll (g : FactorGraph) : FactorGraph :=
  g.GetUnassignedVariables.foldl EvaluateVariable g

/-- The edge-cleaning step of the decimation assignment loop
(`Algorithms.cpp` lines 310-318): a satisfied literal disables its clause,
a falsified one is itself disabled. -/
def aacStep (b : Bool) (ga : FactorGraph) (e : Nat) : FactorGraph :=
  if (ga.edgeAt e).type == b then ga.disableClause (ga.edgeAt e).clauseId
  else ga.disableEdge e

/-- Embedded from `Algorithms.cpp` (lines 307-319): assign variable `v` to
`evalValue > 0` and walk a snapshot of its enabled edges, cleaning each via
`aacStep`. -/
def assignAndClean (g : FactorGraph) (v : Nat) : FactorGraph :=
  let b := decide (0 < (g.varAt v).evalValue)
  let g1 := g.assignVar v b
  (g1.varEnabledEdges v).foldl (aacStep b) g1

/-- The decimation comparator of `Algorithms.cpp` (lines 302-305): larger
`|evalValue|` first. -/
def decimOrder (g : FactorGraph) (a b : Nat) : Prop :=
  ratAbs (g.varAt b).evalValue ≤ ratAbs (g.varAt a).evalValue

instance (g : FactorGraph) : DecidableRel (decimOrder g) := fun a b =>
  inferInstanceAs (Decidable (ratAbs (g.varAt b).evalValue ≤ ratAbs (g.varAt a).evalValue))

instance (g : FactorGraph) : IsTotal Nat (decimOrder g) :=
  ⟨fun a b =>
    (le_total (ratAbs (g.varAt a).evalValue) (ratAbs (g.varAt b).evalValue)).elim
      Or.inr Or.inl⟩

instance (g : FactorGraph) : IsTrans Nat (decimOrder g) :=
  ⟨fun _ _ _ hab hbc => le_trans hbc hab⟩

/-- Embedded from `Algorithms.cpp` (lines 299-320): the decimation step:
`k = max 1 ⌊n·fraction⌋` variables taken from the unassigned variables
sorted by descending `|evalValue|` (`std::sort` may realise any order
compatible with the strict comparator; the stable insertion sort is one
such realisation).  `none` models the out-of-bounds
`unassignedVariables[i]` access arising when `k` exceeds the number of
unassigned variables. -/
def decimate (g : FactorGraph) (fraction : ℚ) : Option FactorGraph :=
  let unassigned := g.GetUnassignedVariables
  let k := max 1 (((unassigned.length : ℚ) * fraction).floor.toNat)
  if unassigned.length < k then none
  else some (((unassigned.insertionSort (decimOrder g)).take k).foldl assignAndClean g)

/-- The decimation-step postcondition of spec §4.6 step 4, stated over the
embedded `decimate`: exactly `k = max 1 ⌊n·fraction⌋` of the `n` unassigned
variables are assigned — the `k` of largest `|evalValue|`, each set to
`evalValue > 0` — all other variable records are untouched, and each
assignment cleans the assigned variable's snapshot of enabled incident
edges through `aacStep`. -/
def decimStepSpec (g : FactorGraph) (fraction : ℚ) : Prop :=
  let unassigned := g.GetUnassignedVariables
  let sorted := unassigned.insertionSort (decimOrder g)
  let k := max 1 (((unassigned.length : ℚ) * fraction).floor.toNat)
  let res := (sorted.take k).foldl assignAndClean g
  k ≤ unassigned.length ∧
  sorted.Perm unassigned ∧
  sorted.Sorted (decimOrder g) ∧
  (sorted.take k).length = k ∧
  (sorted.take k).Nodup ∧
  decimate g fraction = some res ∧
  (∀ a ∈ sorted.take k, ∀ c ∈ sorted.drop k, decimOrder g a c) ∧
  (∀ v ∈ sorted.take k, (g.varAt v).assigned = false ∧
    (res.varAt v).assigned = true ∧
    (res.varAt v).value = decide (0 < (g.varAt v).evalValue)) ∧
  (∀ i, i ∉ sorted.take k → res.varAt i = g.varAt i) ∧
  (∀ (gx : FactorGraph) (v : Nat), ∀ e ∈ gx.varEnabledEdges v,
    if (gx.edgeAt e).type == decide (0 < (gx.varAt v).evalValue)
    then ((assignAndClean gx v).clauseAt (gx.edgeAt e).clauseId).enabled = false
    else ((assignAndClean gx v).edgeAt e).enabled = false)

/-- Modelled from the spec (§4.6, §6): the SID result record (the two
monotonic timestamps are outside the model). -/
structure SIDResult where
  SAT : Bool
  totalSPIterations : Nat
deriving DecidableEq

/-- Outcome of the embedded `SID`: a result record, undefined behaviour
(`crash`), or exhaustion of the fuel bounding the unbounded `while (true)`
loop (an embedding artifact, never a behaviour of the code). -/
inductive SIDOutcome where
  | ok (res : SIDResult) (g : FactorGraph) (rng : Rng)
  | crash
  | fuelOut (g : FactorGraph) (rng : Rng)

/-- Embedded from `Algorithms.cpp` (lines 251-339, `SID`): the decimation
driver.  `total` accumulates the SP iteration count. -/
def SID : Nat → FactorGraph → ℚ → Rng → Nat → SIDOutcome
  | 0, g, _, rng, _ => .fuelOut g rng
  | fuel + 1, g, fraction, rng, total =>
    let sp := SurveyPropagation g rng
    let total1 := total + sp.2.2.iterations
    if !sp.2.2.converged then .ok ⟨false, total1⟩ sp.1 sp.2.1
    else if (sp.1.GetEnabledEdges).all (fun e => (sp.1.edgeAt e).survey == 0) then
      match Walksat sp.1 sp.2.1 with
      | none => .crash
      | some w => .ok ⟨w.1, total1⟩ w.2.1 w.2.2
    else
      let g2 := evaluateAll sp.1
      match decimate g2 fraction with
      | none => .crash
      | some g3 =>
        match UnitPropagation g3 with
        | none => .crash
        | some u =>
          if !u.1 then .ok ⟨false, total1⟩ u.2 sp.2.1
          else if u.2.IsSAT then .ok ⟨true, total1⟩ u.2 sp.2.1
          else SID fuel u.2 fraction sp.2.1 total1

/-- Modelled from the spec (§4.1): a linear congruential step standing in
for the 64-bit Mersenne Twister (any fixed deterministic generator). -/
def lcgNext (x : Nat) : Nat := (6364136223846793005 * x + 1442695040888963407) % 2 ^ 64

/-- The raw stream obtained from a seed. -/
def lcgIter (seed : Nat) : Nat → Nat
  | 0 => lcgNext seed
  | n + 1 => lcgNext (lcgIter seed n)

/-- Modelled from the spec (§4.1 `seed(u64)`): the process-wide random
source, freshly seeded. -/
def seedRng (seed : Nat) : Rng := ⟨lcgIter seed, 0⟩

/-- The embedded driver run on a parsed DIMACS stream with a seed. -/
def runSID (fuel numVars : Nat) (cls : List (List Int)) (fraction : ℚ)
    (seed : Nat) : SIDOutcome :=
  SID fuel (FactorGraph.fromDimacs numVars cls) fraction (seedRng seed) 0

/-- Well-formed factor graph (spec §3 invariant 1): every edge is incident
to an actual variable and an actual clause. -/
def wellFormed (g : FactorGraph) : Prop :=
  ∀ e, e < g.edges.length →
    (g.edgeAt e).varId < g.vars.length ∧ (g.edgeAt e).clauseId < g.clauses.length

/-- Spec §3 invariant 3 as a state predicate: no enabled clause with zero
enabled edges (no "contradictory" clause). -/
def noEmptyClause (g : FactorGraph) : Prop :=
  ∀ c, (g.clauseAt c).enabled = true → g.clauseEnabledEdges c ≠ []

/-- Spec §8 property 3, second half: no enabled edge of an enabled clause
is falsified by an assigned variable (an assigned variable on a remaining
edge always satisfies `value == type`). -/
def noConflict (g : FactorGraph) : Prop :=
  ∀ e, (g.edgeAt e).enabled = true →
    (g.clauseAt (g.edgeAt e).clauseId).enabled = true →
    (g.varAt (g.edgeAt e).varId).assigned = true →
    (g.varAt (g.edgeAt e).varId).value = (g.edgeAt e).type

/-- All surveys of the graph lie in `[0,1]`. -/
def surveysIn01 (g : FactorGraph) : Prop :=
  ∀ e, 0 ≤ (g.edgeAt e).survey ∧ (g.edgeAt e).survey ≤ 1

/-- The state relation realised by every WalkSAT operation: the clause
arena and the edge arena (enabled flags and surveys included) are
untouched, the variable arena keeps its length and its `evalValue`s, and
assignedness is monotone (WalkSAT only calls `AssignValue`). -/
def wsReach (g g' : FactorGraph) : Prop :=
  g'.clauses = g.clauses ∧ g'.edges = g.edges ∧
  g'.vars.length = g.vars.length ∧
  (∀ i, (g'.varAt i).evalValue = (g.varAt i).evalValue) ∧
  (∀ i, (g.varAt i).assigned = true → (g'.varAt i).assigned = true)

/-- The neighbour list over which `UpdateSurvey` multiplies the ratios: the
other enabled edges of the clause of `a→i`. -/
def ajList (g : FactorGraph) (ai : Nat) : List Nat :=
  (g.clauseEnabledEdges (g.edgeAt ai).clauseId).filter (fun a => a != ai)

/-- The `0/0` (IEEE NaN) test of the `UpdateSurvey` ratio of neighbour
`a→j`: numerator and denominator of equation (27) both vanish. -/
def nanRatio (g : FactorGraph) (aj : Nat) : Prop :=
  (neighbourTerms g aj).1 = 0 ∧
    (neighbourTerms g aj).1 + (neighbourTerms g aj).2.1 + (neighbourTerms g aj).2.2 = 0

/-- The state (edge order, graph, random source) of the SP sweep loop
before sweep `j` (sweeps counted from 0, shuffling included). -/
def spStates (es : List Nat) (g : FactorGraph) (rng : Rng) : Nat → List Nat × FactorGraph × Rng
  | 0 => (es, g, rng)
  | j + 1 =>
    let st := spStates es g rng j
    let sh := shuffleList st.2.2 st.1
    (sh.1, (spSweep st.2.1 sh.1).1, sh.2)

/-- Whether SP sweep `j` converges every edge (the `allEdgesConverged` flag
of that sweep). -/
def sweepConv (es : List Nat) (g : FactorGraph) (rng : Rng) (j : Nat) : Bool :=
  let st := spStates es g rng j
  (spSweep st.2.1 (shuffleList st.2.2 st.1).1).2

/-- The all-zero raw random stream, used for the concrete runs below. -/
def rngZero : Rng := ⟨fun _ => 0, 0⟩

/-- The all-zero stream with its cursor at `n`. -/
def rngZeroAt (n : Nat) : Rng := ⟨fun _ => 0, n⟩

/-- The spec's scenario S2: `p cnf 1 2` with clauses `1 0` and `-1 0`. -/
def gS2 : FactorGraph := FactorGraph.fromDimacs 1 [[1], [-1]]

/-- The S2 graph after WalkSAT's first try on the all-zero stream: the
variable is assigned `false`, the topology is untouched. -/
def gS2assigned : FactorGraph :=
  ⟨[⟨false, true, 0⟩], [⟨true⟩, ⟨true⟩], [⟨0, 0, true, true, 0⟩, ⟨1, 0, false, true, 0⟩]⟩

/-- A graph with one enabled clause and no edges at all (an empty clause at
the entry of `UnitPropagation`). -/
def gEmptyClause : FactorGraph := ⟨[], [⟨true⟩], []⟩

/-- One unassigned variable, no clauses. -/
def gFree : FactorGraph := ⟨[⟨false, false, 0⟩], [], []⟩

/-- Two unit-style clauses over two variables: `x1` and `x1 ∨ x2`; a unit
propagation input whose first iteration continues the loop. -/
def gUP : FactorGraph := FactorGraph.fromDimacs 2 [[1], [1, 2]]

/-- The state of `gUP` after one unit-propagation iteration: `x1` assigned
true, both clauses disabled (both satisfied by `x1`). -/
def gUPnext : FactorGraph :=
  ⟨[⟨true, true, 0⟩, ⟨false, false, 0⟩], [⟨false⟩, ⟨false⟩],
    [⟨0, 0, true, true, 0⟩, ⟨1, 0, true, true, 0⟩, ⟨1, 1, true, true, 0⟩]⟩

/-- Two unassigned variables with distinct stored biases, one enabled
clause joining them (a concrete decimation input). -/
def gDec : FactorGraph :=
  ⟨[⟨false, false, 1/4⟩, ⟨false, false, -(3/4)⟩], [⟨true⟩],
    [⟨0, 0, true, true, 0⟩, ⟨0, 1, false, true, 0⟩]⟩

/-- The S2 graph as `SID` leaves it after its first decimation: the
variable assigned `false`, the positive unit clause still enabled but with
its only edge disabled (an enabled empty clause), the negative unit clause
disabled. -/
def gS2dec : FactorGraph :=
  ⟨[⟨false, true, 0⟩], [⟨true⟩, ⟨false⟩], [⟨0, 0, true, false, 1⟩, ⟨1, 0, false, true, 1⟩]⟩

/-- `gFree` after WalkSAT's first assignment phase on the all-zero
stream. -/
def gFreeAssigned : FactorGraph := ⟨[⟨false, true, 0⟩], [], []⟩

/-! ### Basic lemmas about the arenas and the mutation primitives -/

namespace FactorGraph

@[simp] theorem edges_assignVar (g : FactorGraph) (v : Nat) (b : Bool) :
    (g.assignVar v b).edges = g.edges := rfl

@[simp] theorem clauses_assignVar (g : FactorGraph) (v : Nat) (b : Bool) :
    (g.assignVar v b).clauses = g.clauses := rfl

@[simp] theorem vars_disableEdge (g : FactorGraph) (e : Nat) :
    (g.disableEdge e).vars = g.vars := rfl

@[simp] theorem clauses_disableEdge (g : FactorGraph) (e : Nat) :
    (g.disableEdge e).clauses = g.clauses := rfl

@[simp] theorem vars_disableClause (g : FactorGraph) (c : Nat) :
    (g.disableClause c).vars = g.vars := rfl

@[simp] theorem edges_disableClause (g : FactorGraph) (c : Nat) :
    (g.disableClause c).edges = g.edges := rfl

@[simp] theorem vars_setSurvey (g : FactorGraph) (e : Nat) (q : ℚ) :
    (g.setSurvey e q).vars = g.vars := rfl

@[simp] theorem clauses_setSurvey (g : FactorGraph) (e : Nat) (q : ℚ) :
    (g.setSurvey e q).clauses = g.clauses := rfl

@[simp] theorem length_vars_assignVar (g : FactorGraph) (v : Nat) (b : Bool) :
    (g.assignVar v b).vars.length = g.vars.length := by
  simp [assignVar]

@[simp] theorem length_edges_disableEdge (g : FactorGraph) (e : Nat) :
    (g.disableEdge e).edges.length = g.edges.length := by
  simp [disableEdge]

@[simp] theorem length_clauses_disableClause (g : FactorGraph) (c : Nat) :
    (g.disableClause c).clauses.length = g.clauses.length := by
  simp [disableClause]

@[simp] theorem length_edges_setSurvey (g : FactorGraph) (e : Nat) (q : ℚ) :
    (g.setSurvey e q).edges.length = g.edges.length := by
  simp [setSurvey]

theorem varAt_assignVar_self (g : FactorGraph) (v : Nat) (b : Bool)
    (h : v < g.vars.length) :
    (g.assignVar v b).varAt v = { g.varAt v with value := b, assigned := true } := by
  simp [varAt, assignVar, List.getD_eq_getElem?_getD, List.getElem?_set_self h]

theorem varAt_assignVar_ne (g : FactorGraph) (v : Nat) (b : Bool) (i : Nat)
    (h : i ≠ v) : (g.assignVar v b).varAt i = g.varAt i := by
  simp [varAt, assignVar, List.getD_eq_getElem?_getD,
    List.getElem?_set_ne (Ne.symm h)]

theorem assignVar_oob (g : FactorGraph) (v : Nat) (b : Bool)
    (h : g.vars.length ≤ v) : g.assignVar v b = g := by
  cases g
  simp [assignVar, List.set_eq_of_length_le h]

theorem edgeAt_disableEdge_self (g : FactorGraph) (e : Nat)
    (h : e < g.edges.length) :
    (g.disableEdge e).edgeAt e = { g.edgeAt e with enabled := false } := by
  simp [edgeAt, disableEdge, List.getD_eq_getElem?_getD, List.getElem?_set_self h]

theorem edgeAt_disableEdge_ne (g : FactorGraph) (e i : Nat) (h : i ≠ e) :
    (g.disableEdge e).edgeAt i = g.edgeAt i := by
  simp [edgeAt, disableEdge, List.getD_eq_getElem?_getD,
    List.getElem?_set_ne (Ne.symm h)]

theorem disableEdge_oob (g : FactorGraph) (e : Nat)
    (h : g.edges.length ≤ e) : g.disableEdge e = g := by
  cases g
  simp [disableEdge, List.set_eq_of_length_le h]

theorem clauseAt_disableClause_self (g : FactorGraph) (c : Nat)
    (h : c < g.clauses.length) :
    (g.disableClause c).clauseAt c = { g.clauseAt c with enabled := false } := by
  simp [clauseAt, disableClause, List.getD_eq_getElem?_getD, List.getElem?_set_self h]

theorem clauseAt_disableClause_ne (g : FactorGraph) (c i : Nat) (h : i ≠ c) :
    (g.disableClause c).clauseAt i = g.clauseAt i := by
  simp [clauseAt, disableClause, List.getD_eq_getElem?_getD,
    List.getElem?_set_ne (Ne.symm h)]

theorem disableClause_oob (g : FactorGraph) (c : Nat)
    (h : g.clauses.length ≤ c) : g.disableClause c = g := by
  cases g
  simp [disableClause, List.set_eq_of_length_le h]

theorem edgeAt_setSurvey_self (g : FactorGraph) (e : Nat) (q : ℚ)
    (h : e < g.edges.length) :
    (g.setSurvey e q).edgeAt e = { g.edgeAt e with survey := q } := by
  simp [edgeAt, setSurvey, List.getD_eq_getElem?_getD, List.getElem?_set_self h]

theorem edgeAt_setSurvey_ne (g : FactorGraph) (e i : Nat) (q : ℚ) (h : i ≠ e) :
    (g.setSurvey e q).edgeAt i = g.edgeAt i := by
  simp [edgeAt, setSurvey, List.getD_eq_getElem?_getD,
    List.getElem?_set_ne (Ne.symm h)]

theorem setSurvey_oob (g : FactorGraph) (e : Nat) (q : ℚ)
    (h : g.edges.length ≤ e) : g.setSurvey e q = g := by
  cases g
  simp [setSurvey, List.set_eq_of_length_le h]

/-- `setSurvey` changes no field other than the survey. -/
theorem edgeAt_setSurvey_fields (g : FactorGraph) (e : Nat) (q : ℚ) (i : Nat) :
    ((g.setSurvey e q).edgeAt i).enabled = (g.edgeAt i).enabled ∧
    ((g.setSurvey e q).edgeAt i).clauseId = (g.edgeAt i).clauseId ∧
    ((g.setSurvey e q).edgeAt i).varId = (g.edgeAt i).varId ∧
    ((g.setSurvey e q).edgeAt i).type = (g.edgeAt i).type := by
  by_cases hi : i = e
  · subst hi
    by_cases hlen : i < g.edges.length
    · rw [edgeAt_setSurvey_self g i q hlen]
      exact ⟨rfl, rfl, rfl, rfl⟩
    · rw [setSurvey_oob g i q (Nat.le_of_not_lt hlen)]
      exact ⟨rfl, rfl, rfl, rfl⟩
  · rw [edgeAt_setSurvey_ne g e i q hi]
    exact ⟨rfl, rfl, rfl, rfl⟩

/-- `assignVar` changes neither `evalValue` nor any other variable. -/
theorem varAt_assignVar_evalValue (g : FactorGraph) (v : Nat) (b : Bool) (i : Nat) :
    ((g.assignVar v b).varAt i).evalValue = (g.varAt i).evalValue := by
  by_cases hi : i = v
  · subst hi
    by_cases hlen : i < g.vars.length
    · rw [varAt_assignVar_self g i b hlen]
    · rw [assignVar_oob g i b (Nat.le_of_not_lt hlen)]
  · rw [varAt_assignVar_ne g v b i hi]

/-- `assignVar` never unassigns a variable. -/
theorem varAt_assignVar_assigned_mono (g : FactorGraph) (v : Nat) (b : Bool)
    (i : Nat) (h : (g.varAt i).assigned = true) :
    ((g.assignVar v b).varAt i).assigned = true := by
  by_cases hi : i = v
  · subst hi
    by_cases hlen : i < g.vars.length
    · rw [varAt_assignVar_self g i b hlen]
    · rw [assignVar_oob g i b (Nat.le_of_not_lt hlen)]; exact h
  · rw [varAt_assignVar_ne g v b i hi]; exact h

@[simp] theorem clauseEnabledEdges_assignVar (g : FactorGraph) (v : Nat)
    (b : Bool) (c : Nat) :
    (g.assignVar v b).clauseEnabledEdges c = g.clauseEnabledEdges c := rfl

@[simp] theorem varEnabledEdges_assignVar (g : FactorGraph) (v : Nat)
    (b : Bool) (i : Nat) :
    (g.assignVar v b).varEnabledEdges i = g.varEnabledEdges i := rfl

@[simp] theorem GetEnabledEdges_assignVar (g : FactorGraph) (v : Nat) (b : Bool) :
    (g.assignVar v b).GetEnabledEdges = g.GetEnabledEdges := rfl

@[simp] theorem GetEnabledClauses_assignVar (g : FactorGraph) (v : Nat) (b : Bool) :
    (g.assignVar v b).GetEnabledClauses = g.GetEnabledClauses := rfl

@[simp] theorem GetUnassignedVariables_disableEdge (g : FactorGraph) (e : Nat) :
    (g.disableEdge e).GetUnassignedVariables = g.GetUnassignedVariables := rfl

@[simp] theorem GetUnassignedVariables_disableClause (g : FactorGraph) (c : Nat) :
    (g.disableClause c).GetUnassignedVariables = g.GetUnassignedVariables := rfl

@[simp] theorem GetUnassignedVariables_setSurvey (g : FactorGraph) (e : Nat) (q : ℚ) :
    (g.setSurvey e q).GetUnassignedVariables = g.GetUnassignedVariables := rfl

@[simp] theorem GetEnabledClauses_disableEdge (g : FactorGraph) (e : Nat) :
    (g.disableEdge e).GetEnabledClauses = g.GetEnabledClauses := rfl

@[simp] theorem GetEnabledClauses_setSurvey (g : FactorGraph) (e : Nat) (q : ℚ) :
    (g.setSurvey e q).GetEnabledClauses = g.GetEnabledClauses := rfl

end FactorGraph

/-- Strict monotonicity of `countP` under a pointwise implication with one
strict witness. -/
theorem countP_lt_countP {α : Type} (l : List α) (p q : α → Bool)
    (mono : ∀ a ∈ l, p a = true → q a = true) (a₀ : α) (h₀ : a₀ ∈ l)
    (hq : q a₀ = true) (hp : p a₀ = false) : l.countP p < l.countP q := by
  induction l with
  | nil => cases h₀
  | cons x xs ih =>
    rcases List.mem_cons.mp h₀ with hx | hx
    · subst hx
      rw [List.countP_cons, List.countP_cons, hp, hq]
      simp only [if_true, if_false, Nat.add_zero]
      exact Nat.lt_succ_of_le (List.countP_mono_left (fun a ha => mono a (List.mem_cons_of_mem _ ha)))
    · rw [List.countP_cons, List.countP_cons]
      have ih2 := ih (fun a ha => mono a (List.mem_cons_of_mem _ ha)) hx
      by_cases hpx : p x = true
      · rw [hpx, mono x (List.mem_cons_self x xs) hpx]
        simpa using Nat.add_lt_add_right ih2 1
      · rw [Bool.not_eq_true] at hpx
        rw [hpx]
        simp only [Bool.false_eq_true, if_false, Nat.add_zero]
        calc xs.countP p < xs.countP q := ih2
          _ ≤ xs.countP q + if q x then 1 else 0 := Nat.le_add_right _ _

/-! ### C9 — determinism of `SID` under a fixed seed -/

/-- C9: for every parsed DIMACS input, fraction and seed, two runs of the
embedded `SID` whose random sources are seeded identically produce
identical outcomes (`SAT` flag and `totalSPIterations` included): all
randomness is drawn from the single seeded source threaded through
`SurveyPropagation`, `Walksat` and the driver, and the embedding is a pure
function of the graph and that source. -/
theorem sid_deterministic_under_seed (fuel numVars : Nat) (cls : List (List Int))
    (fraction : ℚ) (seed : Nat) (r₁ r₂ : Rng)
    (h₁ : r₁ = seedRng seed) (h₂ : r₂ = seedRng seed) :
    SID fuel (FactorGraph.fromDimacs numVars cls) fraction r₁ 0 =
      SID fuel (FactorGraph.fromDimacs numVars cls) fraction r₂ 0 ∧
    runSID fuel numVars cls fraction seed =
      SID fuel (FactorGraph.fromDimacs numVars cls) fraction r₁ 0 := by
  subst h₁
  subst h₂
  exact ⟨rfl, rfl⟩

/-- Witness for C9 at a concrete input and seed. -/
theorem sid_deterministic_under_seed_witness :
    SID 1 (FactorGraph.fromDimacs 0 []) 0 (seedRng 7) 0 =
      SID 1 (FactorGraph.fromDimacs 0 []) 0 (seedRng 7) 0 ∧
    runSID 1 0 [] 0 7 = SID 1 (FactorGraph.fromDimacs 0 []) 0 (seedRng 7) 0 :=
  sid_deterministic_under_seed 1 0 [] 0 7 (seedRng 7) (seedRng 7) rfl rfl

/-! ### C1 — the trivially UNSAT instance S2 -/

set_option maxRecDepth 1000000 in
/-- C1 (recording the divergence between spec and code): on the spec's S2
input (`p cnf 1 2`, clauses `1 0` and `-1 0`) the embedded `SID` does not
return `SAT = false` through a Unit Propagation contradiction — it reaches
undefined behaviour.  After `SID`'s first decimation (state `gS2dec`) the
positive unit clause is an enabled empty clause, yet `UnitPropagation`
returns success because an empty clause is not a unit clause; the second
SP round then sees no enabled edges, the triviality branch calls WalkSAT,
and WalkSAT selects the empty enabled clause, reaching the null
`lowestBreakCountVar` dereference / the empty-range
`uniform_int_distribution(0, -1)` (`crash`). -/
theorem sid_s2_reaches_undefined_behaviour :
    SID 5 gS2 0 rngZero 0 = SIDOutcome.crash ∧
    UnitPropagation gS2dec = some (true, gS2dec) ∧
    (gS2dec.clauseAt 0).enabled = true ∧
    gS2dec.clauseEnabledEdges 0 = [] ∧
    gS2dec.IsSAT = false := by
  refine ⟨?_, ?_, ?_, ?_, ?_⟩ <;> with_unfolding_all rfl

/-! ### C7 — the all-trivial-surveys branch of `SID` -/

/-- C7: in any `SID` loop iteration in which SP converged and every
enabled edge of the post-SP graph carries survey exactly 0 (vacuously
included), `SID` calls `Walksat` on the current graph and returns its
boolean as the `SAT` field (with the accumulated iteration count),
performing neither bias evaluation nor decimation. -/
theorem sid_alltrivial_returns_walksat (fuel : Nat) (g : FactorGraph)
    (fraction : ℚ) (rng : Rng) (total : Nat) (b : Bool) (g₂ : FactorGraph)
    (r₂ : Rng)
    (hconv : (SurveyPropagation g rng).2.2.converged = true)
    (htriv : ∀ e ∈ (SurveyPropagation g rng).1.GetEnabledEdges,
      ((SurveyPropagation g rng).1.edgeAt e).survey = 0)
    (hws : Walksat (SurveyPropagation g rng).1 (SurveyPropagation g rng).2.1 =
      some (b, g₂, r₂)) :
    SID (fuel + 1) g fraction rng total =
      SIDOutcome.ok ⟨b, total + (SurveyPropagation g rng).2.2.iterations⟩ g₂ r₂ := by
  have hall : ((SurveyPropagation g rng).1.GetEnabledEdges).all
      (fun e => ((SurveyPropagation g rng).1.edgeAt e).survey == 0) = true := by
    rw [List.all_eq_true]
    intro e he
    simp [htriv e he]
  show (let sp := SurveyPropagation g rng
    let total1 := total + sp.2.2.iterations
    if !sp.2.2.converged then SIDOutcome.ok ⟨false, total1⟩ sp.1 sp.2.1
    else if (sp.1.GetEnabledEdges).all (fun e => (sp.1.edgeAt e).survey == 0) then
      match Walksat sp.1 sp.2.1 with
      | none => SIDOutcome.crash
      | some w => SIDOutcome.ok ⟨w.1, total1⟩ w.2.1 w.2.2
    else
      match decimate (evaluateAll sp.1) fraction with
      | none => SIDOutcome.crash
      | some g3 =>
        match UnitPropagation g3 with
        | none => SIDOutcome.crash
        | some u =>
          if !u.1 then SIDOutcome.ok ⟨false, total1⟩ u.2 sp.2.1
          else if u.2.IsSAT then SIDOutcome.ok ⟨true, total1⟩ u.2 sp.2.1
          else SID fuel u.2 fraction sp.2.1 total1) =
    SIDOutcome.ok ⟨b, total + (SurveyPropagation g rng).2.2.iterations⟩ g₂ r₂
  simp only [hconv, hall, hws, Bool.not_true, Bool.false_eq_true, if_false, if_true]

set_option maxRecDepth 1000000 in
/-- Witness for C7: a one-variable, zero-clause graph; SP converges in one
sweep with no enabled edges (triviality holds vacuously), WalkSAT succeeds
immediately. -/
theorem sid_alltrivial_returns_walksat_witness :
    (SurveyPropagation gFree rngZero).2.2.converged = true ∧
    Walksat (SurveyPropagation gFree rngZero).1 (SurveyPropagation gFree rngZero).2.1 =
      some (true, gFreeAssigned, rngZeroAt 1) ∧
    SID 1 gFree 0 rngZero 0 =
      SIDOutcome.ok ⟨true, 0 + (SurveyPropagation gFree rngZero).2.2.iterations⟩
        gFreeAssigned (rngZeroAt 1) := by
  refine ⟨by with_unfolding_all rfl, by with_unfolding_all rfl, ?_⟩
  refine sid_alltrivial_returns_walksat 0 gFree 0 rngZero 0 true gFreeAssigned
    (rngZeroAt 1) (by with_unfolding_all rfl) ?_ (by with_unfolding_all rfl)
  have h : (SurveyPropagation gFree rngZero).1.GetEnabledEdges = [] := by
    with_unfolding_all rfl
  rw [h]
  intro e he
  exact absurd he (List.not_mem_nil e)

/-! ### C5 — survey range and NaN coercion in `UpdateSurvey` -/

/-- The fold step of `survProds` keeps all three accumulators in `[0,1]`
when every survey read lies in `[0,1]`. -/
theorem survProds_aux_mem (g : FactorGraph) (t : Bool) (h : surveysIn01 g) :
    ∀ (es : List Nat) (p : ℚ × ℚ × ℚ),
      0 ≤ p.1 → p.1 ≤ 1 → 0 ≤ p.2.1 → p.2.1 ≤ 1 → 0 ≤ p.2.2 → p.2.2 ≤ 1 →
      0 ≤ (es.foldl (fun p e =>
        let f := 1 - (g.edgeAt e).survey
        ((if (g.edgeAt e).type == t then p.1 * f else p.1),
         (if (g.edgeAt e).type != t then p.2.1 * f else p.2.1),
         p.2.2 * f)) p).1 ∧
      (es.foldl (fun p e =>
        let f := 1 - (g.edgeAt e).survey
        ((if (g.edgeAt e).type == t then p.1 * f else p.1),
         (if (g.edgeAt e).type != t then p.2.1 * f else p.2.1),
         p.2.2 * f)) p).1 ≤ 1 ∧
      0 ≤ (es.foldl (fun p e =>
        let f := 1 - (g.edgeAt e).survey
        ((if (g.edgeAt e).type == t then p.1 * f else p.1),
         (if (g.edgeAt e).type != t then p.2.1 * f else p.2.1),
         p.2.2 * f)) p).2.1 ∧
      (es.foldl (fun p e =>
        let f := 1 - (g.edgeAt e).survey
        ((if (g.edgeAt e).type == t then p.1 * f else p.1),
         (if (g.edgeAt e).type != t then p.2.1 * f else p.2.1),
         p.2.2 * f)) p).2.1 ≤ 1 ∧
      0 ≤ (es.foldl (fun p e =>
        let f := 1 - (g.edgeAt e).survey
        ((if (g.edgeAt e).type == t then p.1 * f else p.1),
         (if (g.edgeAt e).type != t then p.2.1 * f else p.2.1),
         p.2.2 * f)) p).2.2 ∧
      (es.foldl (fun p e =>
        let f := 1 - (g.edgeAt e).survey
        ((if (g.edgeAt e).type == t then p.1 * f else p.1),
         (if (g.edgeAt e).type != t then p.2.1 * f else p.2.1),
         p.2.2 * f)) p).2.2 ≤ 1 := by
  intro es
  induction es with
  | nil => intro p h1 h2 h3 h4 h5 h6; exact ⟨h1, h2, h3, h4, h5, h6⟩
  | cons e rest ih =>
    intro p h1 h2 h3 h4 h5 h6
    have hs := h e
    have hf0 : 0 ≤ 1 - (g.edgeAt e).survey := by linarith [hs.2]
    have hf1 : 1 - (g.edgeAt e).survey ≤ 1 := by linarith [hs.1]
    refine ih _ ?_ ?_ ?_ ?_ ?_ ?_ <;> dsimp only
    · split
      · exact mul_nonneg h1 hf0
      · exact h1
    · split
      · exact mul_le_one₀ h2 hf0 hf1
      · exact h2
    · split
      · exact mul_nonneg h3 hf0
      · exact h3
    · split
      · exact mul_le_one₀ h4 hf0 hf1
      · exact h4
    · exact mul_nonneg h5 hf0
    · exact mul_le_one₀ h6 hf0 hf1

/-- All three products of `survProds` lie in `[0,1]`. -/
theorem survProds_mem (g : FactorGraph) (t : Bool) (es : List Nat)
    (h : surveysIn01 g) :
    0 ≤ (survProds g t es).1 ∧ (survProds g t es).1 ≤ 1 ∧
    0 ≤ (survProds g t es).2.1 ∧ (survProds g t es).2.1 ≤ 1 ∧
    0 ≤ (survProds g t es).2.2 ∧ (survProds g t es).2.2 ≤ 1 := by
  have := survProds_aux_mem g t h es (1, 1, 1) (by norm_num) (by norm_num)
    (by norm_num) (by norm_num) (by norm_num) (by norm_num)
  exact this

/-- All three equation-(26) terms lie in `[0,1]`. -/
theorem neighbourTerms_mem (g : FactorGraph) (aj : Nat) (h : surveysIn01 g) :
    0 ≤ (neighbourTerms g aj).1 ∧ (neighbourTerms g aj).1 ≤ 1 ∧
    0 ≤ (neighbourTerms g aj).2.1 ∧ (neighbourTerms g aj).2.1 ≤ 1 ∧
    0 ≤ (neighbourTerms g aj).2.2 ∧ (neighbourTerms g aj).2.2 ≤ 1 := by
  have hp := survProds_mem g (g.edgeAt aj).type
    (((g.varEnabledEdges (g.edgeAt aj).varId)).filter (fun b => b != aj)) h
  obtain ⟨p10, p11, p20, p21, p30, p31⟩ := hp
  unfold neighbourTerms
  refine ⟨mul_nonneg (by linarith) p10, mul_le_one₀ (by linarith) p10 p11,
    mul_nonneg (by linarith) p20, mul_le_one₀ (by linarith) p20 p21, p30, p31⟩

/-- The survey product stays in `[0,1]` from any seed value in `[0,1]`. -/
theorem surveyProd_mem (g : FactorGraph) (h : surveysIn01 g) :
    ∀ (l : List Nat) (s : ℚ), 0 ≤ s → s ≤ 1 →
      0 ≤ surveyProd g l s ∧ surveyProd g l s ≤ 1 := by
  intro l
  induction l with
  | nil => intro s h0 h1; exact ⟨h0, h1⟩
  | cons aj rest ih =>
    intro s h0 h1
    obtain ⟨t10, t11, t20, t21, t30, t31⟩ := neighbourTerms_mem g aj h
    rw [surveyProd]
    split
    · norm_num
    · rename_i hcond
      set t := neighbourTerms g aj with ht
      by_cases hden : t.1 + t.2.1 + t.2.2 = 0
      · have ht1 : t.1 = 0 := by linarith
        exact absurd ⟨ht1, hden⟩ hcond
      · have hdpos : 0 < t.1 + t.2.1 + t.2.2 :=
          lt_of_le_of_ne (by linarith) (Ne.symm hden)
        have hr0 : 0 ≤ t.1 / (t.1 + t.2.1 + t.2.2) := div_nonneg t10 (le_of_lt hdpos)
        have hr1 : t.1 / (t.1 + t.2.1 + t.2.2) ≤ 1 :=
          (div_le_one hdpos).mpr (by linarith)
        exact ih _ (mul_nonneg h0 hr0) (mul_le_one₀ h1 hr0 hr1)

/-- `UpdateSurvey` unfolded through `ajList`. -/
theorem updateSurvey_eq (g : FactorGraph) (ai : Nat) :
    UpdateSurvey g ai = g.setSurvey ai (surveyProd g (ajList g ai) 1) := rfl

/-- A `0/0` neighbour ratio anywhere in the list forces the product to 0
(the loop breaks with `Sai = 0`). -/
theorem surveyProd_of_nan (g : FactorGraph) :
    ∀ (l : List Nat) (s : ℚ), (∃ aj ∈ l, nanRatio g aj) →
      surveyProd g l s = 0 := by
  intro l
  induction l with
  | nil => intro s h; obtain ⟨aj, hm, _⟩ := h; cases hm
  | cons a rest ih =>
    intro s h
    rw [surveyProd]
    split
    · rfl
    · rename_i hcond
      obtain ⟨aj, hm, hnan⟩ := h
      rcases List.mem_cons.mp hm with rfl | hm2
      · exact absurd ⟨hnan.1, hnan.2⟩ hcond
      · exact ih _ ⟨aj, hm2, hnan⟩

set_option maxRecDepth 2000 in
/-- C5: if every survey of the graph lies in `[0,1]`, then `UpdateSurvey`
writes a survey in `[0,1]` (never NaN) and leaves every other survey
unchanged, so the whole graph stays in `[0,1]`; whenever some neighbour
ratio is the `0/0` (NaN) case the written survey is exactly `0`; and
consequently every SP sweep and the random SP initialisation preserve the
`[0,1]` survey invariant. -/
theorem updateSurvey_range_and_nan (g : FactorGraph) (h : surveysIn01 g) :
    (∀ ai, surveysIn01 (UpdateSurvey g ai)) ∧
    (∀ ai, ai < g.edges.length → (∃ aj ∈ ajList g ai, nanRatio g aj) →
      ((UpdateSurvey g ai).edgeAt ai).survey = 0) ∧
    (∀ es, surveysIn01 (spSweep g es).1) ∧
    (∀ rng es, surveysIn01 (spInit g rng es).1) := by
  have upd : ∀ (g₀ : FactorGraph), surveysIn01 g₀ → ∀ ai,
      surveysIn01 (UpdateSurvey g₀ ai) := by
    intro g₀ h₀ ai
    rw [updateSurvey_eq]
    intro e
    by_cases hai : ai < g₀.edges.length
    · by_cases he : e = ai
      · subst he
        rw [FactorGraph.edgeAt_setSurvey_self g₀ e _ hai]
        exact surveyProd_mem g₀ h₀ _ 1 (by norm_num) (by norm_num)
      · rw [FactorGraph.edgeAt_setSurvey_ne g₀ ai e _ he]
        exact h₀ e
    · rw [FactorGraph.setSurvey_oob g₀ ai _ (Nat.le_of_not_lt hai)]
      exact h₀ e
  refine ⟨upd g h, ?_, ?_, ?_⟩
  · intro ai hai hnan
    rw [updateSurvey_eq, FactorGraph.edgeAt_setSurvey_self g ai _ hai]
    exact surveyProd_of_nan g _ 1 hnan
  · intro es
    have sweep : ∀ (l : List Nat) (p : FactorGraph × Bool), surveysIn01 p.1 →
        surveysIn01 (l.foldl (fun p e =>
          let prev := (p.1.edgeAt e).survey
          let g1 := UpdateSurvey p.1 e
          (g1, p.2 && decide (ratAbs ((g1.edgeAt e).survey - prev) < SP_EPSILON))) p).1 := by
      intro l
      induction l with
      | nil => intro p hp; exact hp
      | cons e rest ih => intro p hp; exact ih _ (upd p.1 hp e)
    exact sweep es (g, true) h
  · intro rng es
    have init : ∀ (l : List Nat) (p : FactorGraph × Rng), surveysIn01 p.1 →
        surveysIn01 (l.foldl (fun p e =>
          let d := getRandomReal01 p.2
          (p.1.setSurvey e d.1, d.2)) p).1 := by
      intro l
      induction l with
      | nil => intro p hp; exact hp
      | cons e rest ih =>
        intro p hp
        refine ih _ ?_
        intro i
        dsimp only
        by_cases hlen : e < p.1.edges.length
        · by_cases hi : i = e
          · subst hi
            rw [FactorGraph.edgeAt_setSurvey_self p.1 i _ hlen]
            dsimp only [getRandomReal01]
            have hdpos : (0 : ℚ) < (rngDenom : ℚ) := by norm_num [rngDenom]
            constructor
            · exact div_nonneg (Nat.cast_nonneg _) (le_of_lt hdpos)
            · rw [div_le_one hdpos]
              have hm : (p.2.current % rngDenom : Nat) < rngDenom :=
                Nat.mod_lt _ (by norm_num [rngDenom])
              calc ((p.2.current % rngDenom : Nat) : ℚ) ≤ ((rngDenom : Nat) : ℚ) := by
                    exact_mod_cast le_of_lt hm
                _ = (rngDenom : ℚ) := by norm_num
          · rw [FactorGraph.edgeAt_setSurvey_ne p.1 e i _ hi]
            exact hp i
        · rw [FactorGraph.setSurvey_oob p.1 e _ (Nat.le_of_not_lt hlen)]
          exact hp i
    exact init es (g, rng) h

/-- `surveysIn01` follows from a bound on the stored edge records. -/
theorem surveysIn01_of_edges (g : FactorGraph)
    (h : ∀ ed ∈ g.edges, 0 ≤ ed.survey ∧ ed.survey ≤ 1) : surveysIn01 g := by
  intro e
  by_cases hlen : e < g.edges.length
  · have : g.edgeAt e = g.edges[e] := by
      simp [FactorGraph.edgeAt, List.getD_eq_getElem?_getD, List.getElem?_eq_getElem hlen]
    rw [this]
    exact h _ (g.edges.getElem_mem hlen)
  · have : g.edgeAt e = default := by
      simp [FactorGraph.edgeAt, List.getD_eq_getElem?_getD,
        List.getElem?_eq_none (Nat.le_of_not_lt hlen)]
    rw [this]
    norm_num [default]

/-- Witness for C5 at the concrete graph `gDec`. -/
theorem updateSurvey_range_and_nan_witness :
    surveysIn01 gDec ∧ surveysIn01 (UpdateSurvey gDec 0) := by
  have h : surveysIn01 gDec := by
    refine surveysIn01_of_edges gDec ?_
    intro ed hed
    simp only [gDec, List.mem_cons, List.not_mem_nil, or_false] at hed
    rcases hed with rfl | rfl
    · norm_num
    · norm_num
  exact ⟨h, (updateSurvey_range_and_nan gDec h).1 0⟩

/-! ### C10 / C3 — WalkSAT frame and assignment-phase lemmas -/

theorem wsReach_refl (g : FactorGraph) : wsReach g g :=
  ⟨rfl, rfl, rfl, fun _ => rfl, fun _ h => h⟩

theorem wsReach_trans {g₁ g₂ g₃ : FactorGraph} (h₁ : wsReach g₁ g₂)
    (h₂ : wsReach g₂ g₃) : wsReach g₁ g₃ :=
  ⟨h₂.1.trans h₁.1, h₂.2.1.trans h₁.2.1, h₂.2.2.1.trans h₁.2.2.1,
   fun i => (h₂.2.2.2.1 i).trans (h₁.2.2.2.1 i),
   fun i h => h₂.2.2.2.2 i (h₁.2.2.2.2 i h)⟩

theorem wsReach_assignVar (g : FactorGraph) (v : Nat) (b : Bool) :
    wsReach g (g.assignVar v b) :=
  ⟨rfl, rfl, by simp, fun i => FactorGraph.varAt_assignVar_evalValue g v b i,
   fun i h => FactorGraph.varAt_assignVar_assigned_mono g v b i h⟩

theorem wsReach_flipVar (g : FactorGraph) (v : Nat) :
    wsReach g (g.flipVar v) :=
  wsReach_assignVar g v _

theorem breakCountLoop_reach (satCs : List Nat) :
    ∀ (es : List Nat) (g : FactorGraph) (low : Option Nat) (lc : Nat),
      wsReach g (breakCountLoop satCs g es low lc).1 := by
  intro es
  induction es with
  | nil => intro g low lc; exact wsReach_refl g
  | cons e rest ih =>
    intro g low lc
    rw [breakCountLoop]
    have hgg : wsReach g ((g.flipVar (g.edgeAt e).varId).flipVar (g.edgeAt e).varId) :=
      wsReach_trans (wsReach_flipVar _ _) (wsReach_flipVar _ _)
    split
    · exact hgg
    · exact wsReach_trans hgg (ih _ _ _)

theorem wsFlipStep_reach (g : FactorGraph) (rng : Rng) :
    (∀ g₁ r₁, wsFlipStep g rng = .sat g₁ r₁ → wsReach g g₁) ∧
    (∀ g₁ r₁, wsFlipStep g rng = .cont g₁ r₁ → wsReach g g₁) := by
  constructor <;> intro g₁ r₁ h <;> simp only [wsFlipStep] at h
  · split at h
    · injection h with h1 h2
      subst h1
      exact wsReach_refl g
    · split at h
      · exact WSFlip.noConfusion h
      · split at h
        · exact WSFlip.noConfusion h
        · exact WSFlip.noConfusion h
        · split at h
          · split at h
            · exact WSFlip.noConfusion h
            · exact WSFlip.noConfusion h
          · split at h
            · exact WSFlip.noConfusion h
            · exact WSFlip.noConfusion h
  · split at h
    · exact WSFlip.noConfusion h
    · split at h
      · exact WSFlip.noConfusion h
      · split at h
        · injection h with h1 h2
          subst h1
          exact wsReach_trans (breakCountLoop_reach _ _ _ _ _) (wsReach_flipVar _ _)
        · exact WSFlip.noConfusion h
        · split at h
          · split at h
            · injection h with h1 h2
              subst h1
              exact wsReach_trans (breakCountLoop_reach _ _ _ _ _) (wsReach_flipVar _ _)
            · exact WSFlip.noConfusion h
          · split at h
            · exact WSFlip.noConfusion h
            · injection h with h1 h2
              subst h1
              exact wsReach_trans (breakCountLoop_reach _ _ _ _ _) (wsReach_flipVar _ _)

theorem wsFlips_reach :
    ∀ (f : Nat) (g : FactorGraph) (rng : Rng) (b : Bool) (g₁ : FactorGraph) (r₁ : Rng),
      wsFlips f g rng = some (b, g₁, r₁) → wsReach g g₁ := by
  intro f
  induction f with
  | zero =>
    intro g rng b g₁ r₁ h
    rw [wsFlips] at h
    injection h with h1
    injection h1 with hb hrest
    injection hrest with hg hr
    subst hg
    exact wsReach_refl g
  | succ f ih =>
    intro g rng b g₁ r₁ h
    rw [wsFlips] at h
    split at h
    · rename_i gs rs hstep
      injection h with h1
      injection h1 with hb hrest
      injection hrest with hg hr
      subst hg
      exact (wsFlipStep_reach g rng).1 gs rs hstep
    · rename_i gs rs hstep
      exact wsReach_trans ((wsFlipStep_reach g rng).2 gs rs hstep) (ih _ _ _ _ _ h)
    · exact Option.noConfusion h

theorem wsAssign_reach :
    ∀ (vs : List Nat) (g : FactorGraph) (rng : Rng),
      wsReach g (wsAssign vs g rng).1 := by
  intro vs
  induction vs with
  | nil => intro g rng; exact wsReach_refl g
  | cons v rest ih =>
    intro g rng
    rw [wsAssign]
    exact wsReach_trans (wsReach_assignVar g v _) (ih _ _)

theorem wsTry_reach (g : FactorGraph) (rng : Rng) (b : Bool) (g₁ : FactorGraph)
    (r₁ : Rng) (h : wsTry g rng = some (b, g₁, r₁)) : wsReach g g₁ := by
  unfold wsTry at h
  exact wsReach_trans (wsAssign_reach _ g rng) (wsFlips_reach _ _ _ _ _ _ h)

theorem wsTries_reach :
    ∀ (t : Nat) (g : FactorGraph) (rng : Rng) (b : Bool) (g₁ : FactorGraph) (r₁ : Rng),
      wsTries t g rng = some (b, g₁, r₁) → wsReach g g₁ := by
  intro t
  induction t with
  | zero =>
    intro g rng b g₁ r₁ h
    rw [wsTries] at h
    injection h with h1
    injection h1 with hb hrest
    injection hrest with hg hr
    subst hg
    exact wsReach_refl g
  | succ t ih =>
    intro g rng b g₁ r₁ h
    rw [wsTries] at h
    split at h
    · rename_i g₂ r₂ htry
      injection h with h1
      injection h1 with hb hrest
      injection hrest with hg hr
      subst hg
      exact wsTry_reach _ _ _ _ _ htry
    · rename_i g₂ r₂ htry
      exact wsReach_trans (wsTry_reach _ _ _ _ _ htry) (ih _ _ _ _ _ h)
    · exact Option.noConfusion h

/-- C10: WalkSAT never modifies the graph topology: whenever it returns
(success or failure alike), every clause record (hence every `enabled`
flag), every edge record (hence every edge `enabled` flag and every
`survey`) is identical to the input, the variable arena keeps its length,
and every variable keeps its `evalValue` — only `value`/`assigned` fields
of variables can change. -/
theorem walksat_frame (g : FactorGraph) (rng : Rng) (b : Bool)
    (g₁ : FactorGraph) (r₁ : Rng) (h : Walksat g rng = some (b, g₁, r₁)) :
    g₁.clauses = g.clauses ∧ g₁.edges = g.edges ∧
    g₁.vars.length = g.vars.length ∧
    (∀ i, (g₁.varAt i).evalValue = (g.varAt i).evalValue) := by
  have hr := wsTries_reach WS_MAX_TRIES g rng b g₁ r₁ h
  exact ⟨hr.1, hr.2.1, hr.2.2.1, hr.2.2.2.1⟩

set_option maxRecDepth 1000000 in
/-- Witness for C10: a concrete successful WalkSAT run, with the topology
unchanged. -/
theorem walksat_frame_witness :
    Walksat gFree rngZero = some (true, gFreeAssigned, rngZeroAt 1) ∧
    (gFreeAssigned.clauses = gFree.clauses ∧ gFreeAssigned.edges = gFree.edges ∧
     gFreeAssigned.vars.length = gFree.vars.length ∧
     (∀ i, (gFreeAssigned.varAt i).evalValue = (gFree.varAt i).evalValue)) := by
  have h : Walksat gFree rngZero = some (true, gFreeAssigned, rngZeroAt 1) := by
    with_unfolding_all rfl
  exact ⟨h, walksat_frame gFree rngZero true gFreeAssigned (rngZeroAt 1) h⟩

/-- The WalkSAT assignment phase, characterised: it advances the random
source by one boolean draw per listed variable, writes the successive draws
into the listed variables (setting `assigned`), and touches no other
variable. -/
theorem wsAssign_spec :
    ∀ (vs : List Nat) (g : FactorGraph) (rng : Rng), vs.Nodup →
      (∀ v ∈ vs, v < g.vars.length) →
      (wsAssign vs g rng).2 = ⟨rng.seq, rng.idx + vs.length⟩ ∧
      (∀ k, ∀ hk : k < vs.length, (wsAssign vs g rng).1.varAt (vs.get ⟨k, hk⟩) =
        { g.varAt (vs.get ⟨k, hk⟩) with
            value := rng.seq (rng.idx + k) % 2 == 1, assigned := true }) ∧
      (∀ v, v ∉ vs → (wsAssign vs g rng).1.varAt v = g.varAt v) := by
  intro vs
  induction vs with
  | nil =>
    intro g rng hnd hb
    refine ⟨?_, ?_, ?_⟩
    · show rng = ⟨rng.seq, rng.idx + 0⟩
      cases rng
      rfl
    · intro k hk
      exact absurd hk (Nat.not_lt_zero k)
    · intro v hv
      rfl
  | cons v rest ih =>
    intro g rng hnd hb
    have hvlen : v < g.vars.length := hb v (List.mem_cons_self v rest)
    have hnd2 : rest.Nodup := (List.nodup_cons.mp hnd).2
    have hvnot : v ∉ rest := (List.nodup_cons.mp hnd).1
    have hb2 : ∀ u ∈ rest, u < (g.assignVar v (getRandomBool rng).1).vars.length := by
      intro u hu
      rw [FactorGraph.length_vars_assignVar]
      exact hb u (List.mem_cons_of_mem _ hu)
    obtain ⟨ihr, ihk, ihf⟩ :=
      ih (g.assignVar v (getRandomBool rng).1) (getRandomBool rng).2 hnd2 hb2
    refine ⟨?_, ?_, ?_⟩
    · show (wsAssign rest (g.assignVar v (getRandomBool rng).1) (getRandomBool rng).2).2 =
        ⟨rng.seq, rng.idx + (rest.length + 1)⟩
      rw [ihr]
      show Rng.mk rng.seq (rng.idx + 1 + rest.length) =
        Rng.mk rng.seq (rng.idx + (rest.length + 1))
      congr 1
      omega
    · intro k hk
      match k with
      | 0 =>
        show (wsAssign rest (g.assignVar v (getRandomBool rng).1)
            (getRandomBool rng).2).1.varAt v = _
        rw [ihf v hvnot, FactorGraph.varAt_assignVar_self g v _ hvlen]
        rfl
      | k + 1 =>
        have hk2 : k < rest.length := Nat.lt_of_succ_lt_succ hk
        have hne : rest.get ⟨k, hk2⟩ ≠ v := by
          intro hvv
          exact hvnot (hvv ▸ rest.get_mem k hk2)
        have hstep := ihk k hk2
        rw [FactorGraph.varAt_assignVar_ne g v _ _ hne] at hstep
        show (wsAssign rest (g.assignVar v (getRandomBool rng).1)
            (getRandomBool rng).2).1.varAt (rest.get ⟨k, hk2⟩) = _
        rw [hstep]
        show { g.varAt (rest.get ⟨k, hk2⟩) with
            value := rng.seq (rng.idx + 1 + k) % 2 == 1, assigned := true } = _
        rw [show rng.idx + 1 + k = rng.idx + (k + 1) by omega]
        rfl
    · intro u hu
      have hune : u ≠ v := fun huv => hu (huv ▸ List.mem_cons_self v rest)
      have hurest : u ∉ rest := fun hur => hu (List.mem_cons_of_mem _ hur)
      show (wsAssign rest (g.assignVar v (getRandomBool rng).1)
          (getRandomBool rng).2).1.varAt u = g.varAt u
      rw [ihf u hurest, FactorGraph.varAt_assignVar_ne g v _ u hune]

/-- After the assignment phase over the currently unassigned variables,
every variable of the graph is assigned. -/
theorem wsAssign_all_assigned (g : FactorGraph) (rng : Rng) :
    (wsAssign g.GetUnassignedVariables g rng).1.GetUnassignedVariables = [] := by
  have hnd : g.GetUnassignedVariables.Nodup :=
    (List.nodup_range g.vars.length).filter _
  have hbd : ∀ v ∈ g.GetUnassignedVariables, v < g.vars.length := by
    intro v hv
    exact List.mem_range.mp (List.mem_of_mem_filter hv)
  obtain ⟨_, hk, hf⟩ := wsAssign_spec g.GetUnassignedVariables g rng hnd hbd
  have hlen : (wsAssign g.GetUnassignedVariables g rng).1.vars.length = g.vars.length :=
    (wsAssign_reach g.GetUnassignedVariables g rng).2.2.1
  rw [FactorGraph.GetUnassignedVariables, List.filter_eq_nil_iff]
  intro v hv
  rw [hlen] at hv
  have hvlt : v < g.vars.length := List.mem_range.mp hv
  simp only [Bool.not_eq_true', Bool.not_eq_false]
  by_cases hmem : v ∈ g.GetUnassignedVariables
  · obtain ⟨⟨k, hklt⟩, rfl⟩ := List.mem_iff_get.mp hmem
    rw [hk k hklt]
  · rw [hf v hmem]
    by_contra hasg
    rw [Bool.not_eq_true] at hasg
    have : v ∈ g.GetUnassignedVariables := by
      rw [FactorGraph.GetUnassignedVariables, List.mem_filter]
      exact ⟨List.mem_range.mpr hvlt, by rw [hasg]; rfl⟩
    exact hmem this

/-- A `wsReach` step out of a fully assigned graph stays fully assigned. -/
theorem unassigned_empty_of_reach (g g' : FactorGraph) (h : wsReach g g')
    (he : g.GetUnassignedVariables = []) : g'.GetUnassignedVariables = [] := by
  rw [FactorGraph.GetUnassignedVariables, List.filter_eq_nil_iff] at he ⊢
  intro v hv
  rw [h.2.2.1] at hv
  have := he v hv
  simp only [Bool.not_eq_true', Bool.not_eq_false] at this ⊢
  exact h.2.2.2.2 v this

/-- C3, amended: in every `Walksat` call, the first try assigns every
variable that is unassigned on entry an independent fresh boolean draw (one
raw draw per variable, in list order) while all other variables keep their
records; after that first assignment phase every variable of the graph is
assigned, so whenever a try ends unsuccessfully the next try's assignment
phase reassigns nothing (it is the identity on graph and random source) and
the next try continues from the previous try's final assignment. -/
theorem walksat_try_assignment (g : FactorGraph) (rng : Rng) :
    Walksat g rng = wsTries WS_MAX_TRIES g rng ∧
    wsTry g rng = wsFlips WS_MAX_FLIPS (wsAssign g.GetUnassignedVariables g rng).1
      (wsAssign g.GetUnassignedVariables g rng).2 ∧
    (wsAssign g.GetUnassignedVariables g rng).2 =
      ⟨rng.seq, rng.idx + g.GetUnassignedVariables.length⟩ ∧
    (∀ k, ∀ hk : k < g.GetUnassignedVariables.length,
      (wsAssign g.GetUnassignedVariables g rng).1.varAt
          (g.GetUnassignedVariables.get ⟨k, hk⟩) =
        { g.varAt (g.GetUnassignedVariables.get ⟨k, hk⟩) with
            value := rng.seq (rng.idx + k) % 2 == 1, assigned := true }) ∧
    (∀ v, v ∉ g.GetUnassignedVariables →
      (wsAssign g.GetUnassignedVariables g rng).1.varAt v = g.varAt v) ∧
    (∀ b g₁ r₁, wsTry g rng = some (b, g₁, r₁) →
      g₁.GetUnassignedVariables = [] ∧
      wsAssign g₁.GetUnassignedVariables g₁ r₁ = (g₁, r₁)) := by
  have hnd : g.GetUnassignedVariables.Nodup :=
    (List.nodup_range g.vars.length).filter _
  have hbd : ∀ v ∈ g.GetUnassignedVariables, v < g.vars.length := by
    intro v hv
    exact List.mem_range.mp (List.mem_of_mem_filter hv)
  obtain ⟨hr, hk, hf⟩ := wsAssign_spec g.GetUnassignedVariables g rng hnd hbd
  refine ⟨rfl, rfl, hr, hk, hf, ?_⟩
  intro b g₁ r₁ htry
  have hempty0 : (wsAssign g.GetUnassignedVariables g rng).1.GetUnassignedVariables = [] :=
    wsAssign_all_assigned g rng
  have hreach : wsReach (wsAssign g.GetUnassignedVariables g rng).1 g₁ :=
    wsFlips_reach WS_MAX_FLIPS _ _ b g₁ r₁ htry
  have hempty : g₁.GetUnassignedVariables = [] :=
    unassigned_empty_of_reach _ _ hreach hempty0
  refine ⟨hempty, ?_⟩
  rw [hempty]
  rfl

set_option maxRecDepth 1000000 in
/-- Counterexample to C3 as stated: on the graph `gS2` (one entry-unassigned
variable, two opposite unit clauses, hence unsatisfiable) with the all-zero
stream, try 0 fails and hands state `(gS2assigned, rngZeroAt 301)` to try 1;
try 1's assignment phase is the identity (no variable is reassigned, no
draw is consumed), while the reassignment of the entry-unassigned variable
that the claim requires would produce a different state. -/
theorem walksat_reassignment_claim_false :
    gS2.GetUnassignedVariables = [0] ∧
    wsTry gS2 rngZero = some (false, gS2assigned, rngZeroAt 301) ∧
    wsTries WS_MAX_TRIES gS2 rngZero = wsTries (WS_MAX_TRIES - 1) gS2assigned (rngZeroAt 301) ∧
    gS2assigned.GetUnassignedVariables = [] ∧
    wsTry gS2assigned (rngZeroAt 301) = wsFlips WS_MAX_FLIPS gS2assigned (rngZeroAt 301) ∧
    wsAssign gS2assigned.GetUnassignedVariables gS2assigned (rngZeroAt 301) =
      (gS2assigned, rngZeroAt 301) ∧
    wsAssign gS2.GetUnassignedVariables gS2assigned (rngZeroAt 301) ≠
      (gS2assigned, rngZeroAt 301) := by
  have h2 : wsTry gS2 rngZero = some (false, gS2assigned, rngZeroAt 301) := by
    with_unfolding_all rfl
  have h3 : wsTries WS_MAX_TRIES gS2 rngZero =
      wsTries (WS_MAX_TRIES - 1) gS2assigned (rngZeroAt 301) := by
    show wsTries (9 + 1) gS2 rngZero = wsTries 9 gS2assigned (rngZeroAt 301)
    rw [wsTries, h2]
  refine ⟨by with_unfolding_all rfl, h2, h3, by with_unfolding_all rfl,
    by with_unfolding_all rfl, by with_unfolding_all rfl, ?_⟩
  intro hEq
  have h302 : (wsAssign gS2.GetUnassignedVariables gS2assigned (rngZeroAt 301)).2.idx = 302 := by
    with_unfolding_all rfl
  rw [hEq] at h302
  simp only [rngZeroAt] at h302
  omega

set_option maxRecDepth 1000000 in
/-- Witness for the amended C3 at the concrete run used in the
counterexample. -/
theorem walksat_try_assignment_witness :
    wsTry gS2 rngZero = some (false, gS2assigned, rngZeroAt 301) ∧
    (gS2assigned.GetUnassignedVariables = [] ∧
     wsAssign gS2assigned.GetUnassignedVariables gS2assigned (rngZeroAt 301) =
       (gS2assigned, rngZeroAt 301)) := by
  have h : wsTry gS2 rngZero = some (false, gS2assigned, rngZeroAt 301) := by
    with_unfolding_all rfl
  exact ⟨h, (walksat_try_assignment gS2 rngZero).2.2.2.2.2 false gS2assigned
    (rngZeroAt 301) h⟩

/-! ### C4 — convergence behaviour of `SurveyPropagation` -/

/-- Unfolding the sweep-state iteration from the front. -/
theorem spStates_shift (es : List Nat) (g : FactorGraph) (rng : Rng) :
    ∀ j, spStates es g rng (j + 1) =
      spStates (shuffleList rng es).1 (spSweep g (shuffleList rng es).1).1
        (shuffleList rng es).2 j := by
  intro j
  induction j with
  | zero => rfl
  | succ j ih =>
    show (let st := spStates es g rng (j + 1)
      let sh := shuffleList st.2.2 st.1
      (sh.1, (spSweep st.2.1 sh.1).1, sh.2)) = _
    rw [ih]
    rfl

/-- Shifting the per-sweep convergence flag by one sweep. -/
theorem sweepConv_shift (es : List Nat) (g : FactorGraph) (rng : Rng) (j : Nat) :
    sweepConv es g rng (j + 1) =
      sweepConv (shuffleList rng es).1 (spSweep g (shuffleList rng es).1).1
        (shuffleList rng es).2 j := by
  unfold sweepConv
  rw [spStates_shift]

/-- If no sweep within the fuel converges, the loop runs all sweeps and
reports `converged := false`. -/
theorem spLoop_no_conv :
    ∀ (fuel : Nat) (es : List Nat) (g : FactorGraph) (rng : Rng) (total : Nat),
      (∀ j, j < fuel → sweepConv es g rng j = false) →
      spLoop fuel es g rng total =
        ((spStates es g rng fuel).2.1, (spStates es g rng fuel).2.2,
          ⟨false, total + fuel⟩) := by
  intro fuel
  induction fuel with
  | zero =>
    intro es g rng total h
    rfl
  | succ fuel ih =>
    intro es g rng total h
    have h0 : sweepConv es g rng 0 = false := h 0 (Nat.succ_pos fuel)
    have hsw : (spSweep g (shuffleList rng es).1).2 = false := h0
    rw [spLoop]
    rw [hsw]
    simp only [Bool.false_eq_true, if_false]
    have hsh : ∀ j, j < fuel →
        sweepConv (shuffleList rng es).1 (spSweep g (shuffleList rng es).1).1
          (shuffleList rng es).2 j = false := by
      intro j hj
      rw [← sweepConv_shift]
      exact h (j + 1) (Nat.succ_lt_succ hj)
    rw [ih _ _ _ _ hsh, spStates_shift]
    have : total + 1 + fuel = total + (fuel + 1) := by omega
    rw [this]

/-- If sweep `j₀` is the first converging sweep within the fuel, the loop
stops right after it with `converged := true` and `j₀ + 1` executed
sweeps. -/
theorem spLoop_first_conv :
    ∀ (fuel : Nat) (es : List Nat) (g : FactorGraph) (rng : Rng) (total j₀ : Nat),
      j₀ < fuel → sweepConv es g rng j₀ = true →
      (∀ i, i < j₀ → sweepConv es g rng i = false) →
      spLoop fuel es g rng total =
        ((spStates es g rng (j₀ + 1)).2.1, (spStates es g rng (j₀ + 1)).2.2,
          ⟨true, total + j₀ + 1⟩) := by
  intro fuel
  induction fuel with
  | zero =>
    intro es g rng total j₀ hj
    exact absurd hj (Nat.not_lt_zero j₀)
  | succ fuel ih =>
    intro es g rng total j₀ hj hc hmin
    match j₀ with
    | 0 =>
      have hsw : (spSweep g (shuffleList rng es).1).2 = true := hc
      rw [spLoop]
      rw [hsw]
      simp only [if_true]
      rw [spStates_shift]
      rfl
    | j₀ + 1 =>
      have h0 : sweepConv es g rng 0 = false := hmin 0 (Nat.succ_pos j₀)
      have hsw : (spSweep g (shuffleList rng es).1).2 = false := h0
      rw [spLoop]
      rw [hsw]
      simp only [Bool.false_eq_true, if_false]
      have hc2 : sweepConv (shuffleList rng es).1 (spSweep g (shuffleList rng es).1).1
          (shuffleList rng es).2 j₀ = true := by
        rw [← sweepConv_shift]
        exact hc
      have hmin2 : ∀ i, i < j₀ →
          sweepConv (shuffleList rng es).1 (spSweep g (shuffleList rng es).1).1
            (shuffleList rng es).2 i = false := by
        intro i hi
        rw [← sweepConv_shift]
        exact hmin (i + 1) (Nat.succ_lt_succ hi)
      rw [ih _ _ _ _ j₀ (Nat.lt_of_succ_lt_succ hj) hc2 hmin2,
        spStates_shift es g rng (j₀ + 1)]
      have : total + 1 + j₀ + 1 = total + (j₀ + 1) + 1 := by omega
      rw [this]

/-- C4: `SurveyPropagation` executes at most `SP_MAX_ITERATIONS` sweeps;
it reports `converged = true` exactly when some sweep within the cap
updates every edge of the enabled-edge snapshot by an absolute change below
`SP_EPSILON`; in that case it stops right after the first such sweep (the
reported iteration count is one more than its index, no earlier sweep
converges, and the returned graph is the state after that sweep); otherwise
it reports exactly `SP_MAX_ITERATIONS` executed sweeps and no sweep
converged. -/
theorem surveyPropagation_convergence (g : FactorGraph) (rng : Rng) :
    (SurveyPropagation g rng).2.2.iterations ≤ SP_MAX_ITERATIONS ∧
    ((SurveyPropagation g rng).2.2.converged = true ↔
      ∃ j, j < SP_MAX_ITERATIONS ∧
        sweepConv g.GetEnabledEdges (spInit g rng g.GetEnabledEdges).1
          (spInit g rng g.GetEnabledEdges).2 j = true) ∧
    ((SurveyPropagation g rng).2.2.converged = true →
      0 < (SurveyPropagation g rng).2.2.iterations ∧
      sweepConv g.GetEnabledEdges (spInit g rng g.GetEnabledEdges).1
        (spInit g rng g.GetEnabledEdges).2
        ((SurveyPropagation g rng).2.2.iterations - 1) = true ∧
      (∀ i, i < (SurveyPropagation g rng).2.2.iterations - 1 →
        sweepConv g.GetEnabledEdges (spInit g rng g.GetEnabledEdges).1
          (spInit g rng g.GetEnabledEdges).2 i = false) ∧
      (SurveyPropagation g rng).1 =
        (spStates g.GetEnabledEdges (spInit g rng g.GetEnabledEdges).1
          (spInit g rng g.GetEnabledEdges).2
          (SurveyPropagation g rng).2.2.iterations).2.1) ∧
    ((SurveyPropagation g rng).2.2.converged = false →
      (SurveyPropagation g rng).2.2.iterations = SP_MAX_ITERATIONS ∧
      ∀ j, j < SP_MAX_ITERATIONS →
        sweepConv g.GetEnabledEdges (spInit g rng g.GetEnabledEdges).1
          (spInit g rng g.GetEnabledEdges).2 j = false) := by
  have heq : SurveyPropagation g rng =
      spLoop SP_MAX_ITERATIONS g.GetEnabledEdges
        (spInit g rng g.GetEnabledEdges).1 (spInit g rng g.GetEnabledEdges).2 0 := rfl
  rcases Classical.em (∃ j, j < SP_MAX_ITERATIONS ∧
      sweepConv g.GetEnabledEdges (spInit g rng g.GetEnabledEdges).1
        (spInit g rng g.GetEnabledEdges).2 j = true) with hex | hex
  · have hexw : ∃ j, sweepConv g.GetEnabledEdges (spInit g rng g.GetEnabledEdges).1
        (spInit g rng g.GetEnabledEdges).2 j = true := ⟨hex.choose, hex.choose_spec.2⟩
    have hfind := Nat.find_spec hexw
    have hmin : ∀ i, i < Nat.find hexw →
        sweepConv g.GetEnabledEdges (spInit g rng g.GetEnabledEdges).1
          (spInit g rng g.GetEnabledEdges).2 i = false := by
      intro i hi
      have := Nat.find_min hexw hi
      simpa using this
    have hlt : Nat.find hexw < SP_MAX_ITERATIONS :=
      Nat.lt_of_le_of_lt (Nat.find_min' hexw hex.choose_spec.2) hex.choose_spec.1
    have hloop := spLoop_first_conv SP_MAX_ITERATIONS g.GetEnabledEdges
      (spInit g rng g.GetEnabledEdges).1 (spInit g rng g.GetEnabledEdges).2 0
      (Nat.find hexw) hlt hfind hmin
    rw [heq, hloop]
    dsimp only
    simp only [Nat.zero_add]
    refine ⟨by omega, ?_, ?_, ?_⟩
    · simp only [true_iff]
      exact hex
    · intro _
      refine ⟨by omega, ?_, ?_, ?_⟩
      · show sweepConv _ _ _ (Nat.find hexw + 1 - 1) = true
        have : Nat.find hexw + 1 - 1 = Nat.find hexw := by omega
        rw [this]
        exact hfind
      · intro i hi
        refine hmin i ?_
        omega
      · trivial
    · intro hfalse
      exact absurd hfalse (by simp)
  · rw [not_exists] at hex
    have hall : ∀ j, j < SP_MAX_ITERATIONS →
        sweepConv g.GetEnabledEdges (spInit g rng g.GetEnabledEdges).1
          (spInit g rng g.GetEnabledEdges).2 j = false := by
      intro j hj
      have h2 := hex j
      rw [not_and] at h2
      have h3 := h2 hj
      simpa using h3
    have hloop := spLoop_no_conv SP_MAX_ITERATIONS g.GetEnabledEdges
      (spInit g rng g.GetEnabledEdges).1 (spInit g rng g.GetEnabledEdges).2 0 hall
    refine ⟨?_, ?_, ?_, ?_⟩
    · rw [heq, hloop]
      show 0 + SP_MAX_ITERATIONS ≤ SP_MAX_ITERATIONS
      omega
    · rw [heq, hloop]
      show (false = true) ↔ _
      simp only [Bool.false_eq_true, false_iff]
      rintro ⟨j, hj, hc⟩
      exact absurd hc (by simp [hall j hj])
    · intro htrue
      rw [heq, hloop] at htrue
      exact absurd htrue (by simp)
    · intro _
      refine ⟨?_, hall⟩
      rw [heq, hloop]
      show 0 + SP_MAX_ITERATIONS = SP_MAX_ITERATIONS
      omega

set_option maxRecDepth 1000000 in
/-- Witness for C4: on the S2 instance with the all-zero stream, SP
converges after exactly two sweeps; the theorem then certifies that sweep 1
is the first converging sweep. -/
theorem surveyPropagation_convergence_witness :
    (SurveyPropagation gS2 rngZero).2.2.converged = true ∧
    (0 < (SurveyPropagation gS2 rngZero).2.2.iterations ∧
     sweepConv gS2.GetEnabledEdges (spInit gS2 rngZero gS2.GetEnabledEdges).1
       (spInit gS2 rngZero gS2.GetEnabledEdges).2
       ((SurveyPropagation gS2 rngZero).2.2.iterations - 1) = true ∧
     (∀ i, i < (SurveyPropagation gS2 rngZero).2.2.iterations - 1 →
       sweepConv gS2.GetEnabledEdges (spInit gS2 rngZero gS2.GetEnabledEdges).1
         (spInit gS2 rngZero gS2.GetEnabledEdges).2 i = false) ∧
     (SurveyPropagation gS2 rngZero).1 =
       (spStates gS2.GetEnabledEdges (spInit gS2 rngZero gS2.GetEnabledEdges).1
         (spInit gS2 rngZero gS2.GetEnabledEdges).2
         (SurveyPropagation gS2 rngZero).2.2.iterations).2.1) := by
  have hc : (SurveyPropagation gS2 rngZero).2.2.converged = true := by
    with_unfolding_all rfl
  exact ⟨hc, (surveyPropagation_convergence gS2 rngZero).2.2.1 hc⟩

/-! ### C2 / C8 — Unit Propagation: invariants and termination -/

namespace FactorGraph

theorem varAt_oob (g : FactorGraph) (v : Nat) (h : g.vars.length ≤ v) :
    g.varAt v = default := by
  simp [varAt, List.getD_eq_getElem?_getD, List.getElem?_eq_none h]

theorem clauseAt_oob (g : FactorGraph) (c : Nat) (h : g.clauses.length ≤ c) :
    g.clauseAt c = default := by
  simp [clauseAt, List.getD_eq_getElem?_getD, List.getElem?_eq_none h]

theorem edgeAt_oob (g : FactorGraph) (e : Nat) (h : g.edges.length ≤ e) :
    g.edgeAt e = default := by
  simp [edgeAt, List.getD_eq_getElem?_getD, List.getElem?_eq_none h]

theorem clauseAt_enabled_lt (g : FactorGraph) (c : Nat)
    (h : (g.clauseAt c).enabled = true) : c < g.clauses.length := by
  by_contra hc
  rw [clauseAt_oob g c (Nat.le_of_not_lt hc)] at h
  exact Bool.noConfusion h

theorem edgeAt_enabled_lt (g : FactorGraph) (e : Nat)
    (h : (g.edgeAt e).enabled = true) : e < g.edges.length := by
  by_contra hc
  rw [edgeAt_oob g e (Nat.le_of_not_lt hc)] at h
  exact Bool.noConfusion h

theorem mem_clauseEnabledEdges (g : FactorGraph) (c e : Nat) :
    e ∈ g.clauseEnabledEdges c ↔
      e < g.edges.length ∧ (g.edgeAt e).enabled = true ∧
        (g.edgeAt e).clauseId = c := by
  unfold clauseEnabledEdges
  rw [List.mem_filter, List.mem_range]
  constructor
  · rintro ⟨h1, h2⟩
    rw [Bool.and_eq_true] at h2
    exact ⟨h1, h2.1, by simpa using h2.2⟩
  · rintro ⟨h1, h2, h3⟩
    refine ⟨h1, ?_⟩
    rw [Bool.and_eq_true]
    exact ⟨h2, by simpa using h3⟩

theorem mem_GetEnabledClauses (g : FactorGraph) (c : Nat) :
    c ∈ g.GetEnabledClauses ↔ c < g.clauses.length ∧ (g.clauseAt c).enabled = true := by
  unfold GetEnabledClauses
  rw [List.mem_filter, List.mem_range]

/-- Pointwise congruence for a clause's enabled-edge view. -/
theorem clauseEnabledEdges_eq_of (g g' : FactorGraph) (c : Nat)
    (hlen : g'.edges.length = g.edges.length)
    (hid : ∀ e, (g'.edgeAt e).clauseId = (g.edgeAt e).clauseId)
    (hrec : ∀ e, (g.edgeAt e).clauseId = c → g'.edgeAt e = g.edgeAt e) :
    g'.clauseEnabledEdges c = g.clauseEnabledEdges c := by
  unfold clauseEnabledEdges
  rw [hlen]
  apply List.filter_congr
  intro e _
  by_cases hc : (g.edgeAt e).clauseId = c
  · rw [hrec e hc]
  · have h1 : ((g.edgeAt e).clauseId == c) = false := by
      simpa using hc
    have h2 : ((g'.edgeAt e).clauseId == c) = false := by
      rw [hid e]
      simpa using hc
    rw [h1, h2, Bool.and_false, Bool.and_false]

end FactorGraph

/-- `assignUnits` only assigns variables: the edge and clause arenas are
untouched, the variable arena keeps its length, and assignedness is
monotone. -/
theorem assignUnits_frame :
    ∀ (us : List (Nat × Nat)) (g g₁ : FactorGraph), assignUnits g us = some g₁ →
      g₁.edges = g.edges ∧ g₁.clauses = g.clauses ∧
      g₁.vars.length = g.vars.length ∧
      (∀ i, (g.varAt i).assigned = true → (g₁.varAt i).assigned = true) := by
  intro us
  induction us with
  | nil =>
    intro g g₁ h
    injection h with h1
    subst h1
    exact ⟨rfl, rfl, rfl, fun _ h => h⟩
  | cons u rest ih =>
    intro g g₁ h
    rw [assignUnits] at h
    split at h
    · obtain ⟨h1, h2, h3, h4⟩ := ih _ _ h
      refine ⟨h1, h2, ?_, ?_⟩
      · rw [h3]
        simp
      · intro i hi
        exact h4 i (FactorGraph.varAt_assignVar_assigned_mono g _ _ i hi)
    · split at h
      · exact Option.noConfusion h
      · exact ih _ _ h

/-- If every listed unit variable is already assigned, `assignUnits` is the
identity and each unit edge is satisfied. -/
theorem assignUnits_all_assigned :
    ∀ (us : List (Nat × Nat)) (g g₁ : FactorGraph), assignUnits g us = some g₁ →
      (∀ u ∈ us, (g.varAt (g.edgeAt u.2).varId).assigned = true) →
      g₁ = g ∧ ∀ u ∈ us, (g.edgeAt u.2).type = (g.varAt (g.edgeAt u.2).varId).value := by
  intro us
  induction us with
  | nil =>
    intro g g₁ h _
    injection h with h1
    exact ⟨h1.symm, fun u hu => absurd hu (List.not_mem_nil u)⟩
  | cons u rest ih =>
    intro g g₁ h hall
    rw [assignUnits] at h
    split at h
    · rename_i hcond
      rw [hall u (List.mem_cons_self u rest)] at hcond
      simp at hcond
    · split at h
      · exact Option.noConfusion h
      · rename_i hcond2
        obtain ⟨h1, h2⟩ := ih _ _ h (fun v hv => hall v (List.mem_cons_of_mem _ hv))
        refine ⟨h1, ?_⟩
        intro v hv
        rcases List.mem_cons.mp hv with rfl | hv2
        · simpa using hcond2
        · exact h2 v hv2

/-- The number of unassigned variables never grows along `assignUnits`. -/
theorem assignUnits_unassigned_le :
    ∀ (us : List (Nat × Nat)) (g g₁ : FactorGraph), assignUnits g us = some g₁ →
      unassignedCount g₁ ≤ unassignedCount g := by
  intro us g g₁ h
  obtain ⟨_, _, h3, h4⟩ := assignUnits_frame us g g₁ h
  unfold unassignedCount FactorGraph.GetUnassignedVariables
  rw [← List.countP_eq_length_filter, ← List.countP_eq_length_filter, h3]
  apply List.countP_mono_left
  intro v _ hv
  rw [Bool.not_eq_eq_eq_not, Bool.not_true] at hv ⊢
  by_contra hc
  rw [Bool.not_eq_false] at hc
  rw [h4 v hc] at hv
  exact Bool.noConfusion hv

/-- If some listed unit variable is unassigned (and all unit variables are
in range), `assignUnits` strictly decreases the number of unassigned
variables. -/
theorem assignUnits_unassigned_lt :
    ∀ (us : List (Nat × Nat)) (g g₁ : FactorGraph), assignUnits g us = some g₁ →
      (∀ u ∈ us, (g.edgeAt u.2).varId < g.vars.length) →
      (∃ u ∈ us, (g.varAt (g.edgeAt u.2).varId).assigned = false) →
      unassignedCount g₁ < unassignedCount g := by
  intro us
  induction us with
  | nil =>
    intro g g₁ _ _ hex
    obtain ⟨u, hu, _⟩ := hex
    exact absurd hu (List.not_mem_nil u)
  | cons u rest ih =>
    intro g g₁ h hrange hex
    rw [assignUnits] at h
    split at h
    · rename_i hcond
      -- the head variable was unassigned and gets assigned: strict step
      have hv : (g.edgeAt u.2).varId < g.vars.length :=
        hrange u (List.mem_cons_self u rest)
      have hstep : unassignedCount (g.assignVar (g.edgeAt u.2).varId (g.edgeAt u.2).type) <
          unassignedCount g := by
        unfold unassignedCount FactorGraph.GetUnassignedVariables
        rw [← List.countP_eq_length_filter, ← List.countP_eq_length_filter,
          FactorGraph.length_vars_assignVar]
        refine countP_lt_countP _ _ _ ?_ (g.edgeAt u.2).varId
          (List.mem_range.mpr hv) ?_ ?_
        · intro v _ hp
          rw [Bool.not_eq_eq_eq_not, Bool.not_true] at hp ⊢
          by_contra hc
          rw [Bool.not_eq_false] at hc
          rw [FactorGraph.varAt_assignVar_assigned_mono g _ _ v hc] at hp
          exact Bool.noConfusion hp
        · rw [Bool.not_eq_eq_eq_not, Bool.not_true]
          simpa using hcond
        · rw [FactorGraph.varAt_assignVar_self g _ _ hv]
          simp
      exact Nat.lt_of_le_of_lt (assignUnits_unassigned_le rest _ _ h) hstep
    · split at h
      · exact Option.noConfusion h
      · rename_i hcond hcond2
        refine ih g g₁ h (fun v hv => hrange v (List.mem_cons_of_mem _ hv)) ?_
        obtain ⟨w, hw, hwu⟩ := hex
        rcases List.mem_cons.mp hw with rfl | hw2
        · rw [hwu] at hcond
          exact absurd rfl hcond
        · exact ⟨w, hw2, hwu⟩

/-- `disableEdge` changes no identifying field. -/
theorem edgeAt_disableEdge_fields (g : FactorGraph) (e i : Nat) :
    ((g.disableEdge e).edgeAt i).clauseId = (g.edgeAt i).clauseId ∧
    ((g.disableEdge e).edgeAt i).varId = (g.edgeAt i).varId ∧
    ((g.disableEdge e).edgeAt i).type = (g.edgeAt i).type ∧
    ((g.disableEdge e).edgeAt i).survey = (g.edgeAt i).survey := by
  by_cases hi : i = e
  · subst hi
    by_cases hlen : i < g.edges.length
    · rw [FactorGraph.edgeAt_disableEdge_self g i hlen]
      exact ⟨rfl, rfl, rfl, rfl⟩
    · rw [FactorGraph.disableEdge_oob g i (Nat.le_of_not_lt hlen)]
      exact ⟨rfl, rfl, rfl, rfl⟩
  · rw [FactorGraph.edgeAt_disableEdge_ne g e i hi]
    exact ⟨rfl, rfl, rfl, rfl⟩

/-- Weakening composes on edge records. -/
theorem edge_weaker_trans (x y z : Edge)
    (h1 : y = x ∨ y = { x with enabled := false })
    (h2 : z = y ∨ z = { y with enabled := false }) :
    z = x ∨ z = { x with enabled := false } := by
  rcases h1 with rfl | rfl
  · exact h2
  · rcases h2 with rfl | rfl
    · right; rfl
    · right; rfl

/-- Weakening composes on clause records. -/
theorem clause_weaker_trans (x y z : Clause)
    (h1 : y = x ∨ y = { x with enabled := false })
    (h2 : z = y ∨ z = { y with enabled := false }) :
    z = x ∨ z = { x with enabled := false } := by
  rcases h1 with rfl | rfl
  · exact h2
  · rcases h2 with rfl | rfl
    · right; rfl
    · right; rfl

/-- Frame lemmas for one clause-cleaning pass: variables untouched, arena
lengths kept, other clauses and other clauses' edges untouched, records
only ever weakened. -/
theorem cleanClauseEdges_frame :
    ∀ (es : List Nat) (g : FactorGraph) (c : Nat),
      (∀ e ∈ es, (g.edgeAt e).clauseId = c) →
      (cleanClauseEdges g c es).vars = g.vars ∧
      (cleanClauseEdges g c es).edges.length = g.edges.length ∧
      (cleanClauseEdges g c es).clauses.length = g.clauses.length ∧
      (∀ c2, c2 ≠ c → (cleanClauseEdges g c es).clauseAt c2 = g.clauseAt c2) ∧
      (∀ e2, (g.edgeAt e2).clauseId ≠ c →
        (cleanClauseEdges g c es).edgeAt e2 = g.edgeAt e2) ∧
      (∀ e2, (cleanClauseEdges g c es).edgeAt e2 = g.edgeAt e2 ∨
        (cleanClauseEdges g c es).edgeAt e2 = { g.edgeAt e2 with enabled := false }) ∧
      ((cleanClauseEdges g c es).clauseAt c = g.clauseAt c ∨
        (cleanClauseEdges g c es).clauseAt c = { g.clauseAt c with enabled := false }) := by
  intro es
  induction es with
  | nil =>
    intro g c _
    exact ⟨rfl, rfl, rfl, fun _ _ => rfl, fun _ _ => rfl, fun _ => Or.inl rfl, Or.inl rfl⟩
  | cons e0 rest ih =>
    intro g c hes
    rw [cleanClauseEdges]
    split
    · split
      · -- satisfied literal: the clause is disabled, nothing else moves
        refine ⟨rfl, rfl, by simp, ?_, fun _ _ => rfl, fun _ => Or.inl rfl, ?_⟩
        · intro c2 hc2
          exact FactorGraph.clauseAt_disableClause_ne g c c2 hc2
        · by_cases hlen : c < g.clauses.length
          · right
            exact FactorGraph.clauseAt_disableClause_self g c hlen
          · left
            rw [FactorGraph.disableClause_oob g c (Nat.le_of_not_lt hlen)]
      · -- falsified literal: the edge is disabled, recurse
        have hes2 : ∀ e ∈ rest, ((g.disableEdge e0).edgeAt e).clauseId = c := by
          intro e he
          rw [(edgeAt_disableEdge_fields g e0 e).1]
          exact hes e (List.mem_cons_of_mem _ he)
        obtain ⟨ih1, ih2, ih3, ih4, ih5, ih6, ih7⟩ := ih (g.disableEdge e0) c hes2
        refine ⟨by rw [ih1]; rfl, by rw [ih2]; simp, by rw [ih3]; rfl, ?_, ?_, ?_, ?_⟩
        · intro c2 hc2
          rw [ih4 c2 hc2]
          rfl
        · intro e2 he2
          have hne : e2 ≠ e0 := by
            intro hv
            exact he2 (hv ▸ hes e0 (List.mem_cons_self e0 rest))
          have : (g.disableEdge e0).edgeAt e2 = g.edgeAt e2 :=
            FactorGraph.edgeAt_disableEdge_ne g e0 e2 hne
          rw [ih5 e2 (by rw [(edgeAt_disableEdge_fields g e0 e2).1]; exact he2), this]
        · intro e2
          refine edge_weaker_trans (g.edgeAt e2) ((g.disableEdge e0).edgeAt e2) _
            ?_ (ih6 e2)
          by_cases hi : e2 = e0
          · subst hi
            by_cases hlen : e2 < g.edges.length
            · right
              exact FactorGraph.edgeAt_disableEdge_self g e2 hlen
            · left
              rw [FactorGraph.disableEdge_oob g e2 (Nat.le_of_not_lt hlen)]
          · left
            exact FactorGraph.edgeAt_disableEdge_ne g e0 e2 hi
        · refine clause_weaker_trans (g.clauseAt c) ((g.disableEdge e0).clauseAt c) _
            (Or.inl rfl) ih7
    · -- unassigned variable: nothing happens at this edge
      exact ih g c (fun e he => hes e (List.mem_cons_of_mem _ he))

/-- After one clause-cleaning pass, if the clause survived then every
snapshot edge whose variable is assigned has been disabled. -/
theorem cleanClauseEdges_post :
    ∀ (es : List Nat) (g : FactorGraph) (c : Nat),
      (∀ e ∈ es, (g.edgeAt e).clauseId = c) →
      ((cleanClauseEdges g c es).clauseAt c).enabled = true →
      ∀ e ∈ es, (g.varAt (g.edgeAt e).varId).assigned = true →
        ((cleanClauseEdges g c es).edgeAt e).enabled = false := by
  intro es
  induction es with
  | nil =>
    intro g c _ _ e he
    exact absurd he (List.not_mem_nil e)
  | cons e0 rest ih =>
    intro g c hes hen e he hasg
    rw [cleanClauseEdges] at hen ⊢
    by_cases hasg0 : (g.varAt (g.edgeAt e0).varId).assigned = true
    · rw [if_pos hasg0] at hen ⊢
      by_cases hsat : ((g.edgeAt e0).type == (g.varAt (g.edgeAt e0).varId).value) = true
      · rw [if_pos hsat] at hen ⊢
        exfalso
        by_cases hlen : c < g.clauses.length
        · rw [FactorGraph.clauseAt_disableClause_self g c hlen] at hen
          exact Bool.noConfusion hen
        · rw [FactorGraph.disableClause_oob g c (Nat.le_of_not_lt hlen),
            FactorGraph.clauseAt_oob g c (Nat.le_of_not_lt hlen)] at hen
          exact Bool.noConfusion hen
      · rw [if_neg hsat] at hen ⊢
        have hes2 : ∀ e1 ∈ rest, ((g.disableEdge e0).edgeAt e1).clauseId = c := by
          intro e1 he1
          rw [(edgeAt_disableEdge_fields g e0 e1).1]
          exact hes e1 (List.mem_cons_of_mem _ he1)
        rcases List.mem_cons.mp he with rfl | he2
        · have hdis : ((g.disableEdge e).edgeAt e).enabled = false := by
            by_cases hlen : e < g.edges.length
            · rw [FactorGraph.edgeAt_disableEdge_self g e hlen]
            · rw [FactorGraph.disableEdge_oob g e (Nat.le_of_not_lt hlen)]
              rw [FactorGraph.edgeAt_oob g e (Nat.le_of_not_lt hlen)]
              rfl
          obtain ⟨_, _, _, _, _, ih6, _⟩ :=
            cleanClauseEdges_frame rest (g.disableEdge e) c hes2
          rcases ih6 e with hcase | hcase
          · rw [hcase]
            exact hdis
          · rw [hcase]
        · have hasg2 : ((g.disableEdge e0).varAt
              ((g.disableEdge e0).edgeAt e).varId).assigned = true := by
            rw [(edgeAt_disableEdge_fields g e0 e).2.1]
            exact hasg
          exact ih (g.disableEdge e0) c hes2 hen e he2 hasg2
    · rw [if_neg hasg0] at hen ⊢
      rcases List.mem_cons.mp he with rfl | he2
      · rw [hasg] at hasg0
        exact absurd rfl hasg0
      · exact ih g c (fun e1 he1 => hes e1 (List.mem_cons_of_mem _ he1)) hen e he2 hasg

/-- The clause-cleanup pass over a snapshot of enabled clauses: frames,
monotonicity, and the per-clause postcondition — a snapshot clause that
survives keeps at least one enabled edge, and every snapshot edge of it
whose variable is assigned has been disabled. -/
theorem cleanClauses_spec :
    ∀ (cs : List Nat) (g gf : FactorGraph),
      cleanClauses g cs = some gf →
      (∀ c ∈ cs, (g.clauseAt c).enabled = true) →
      cs.Nodup →
      gf.vars = g.vars ∧
      gf.edges.length = g.edges.length ∧
      gf.clauses.length = g.clauses.length ∧
      (∀ e, (gf.edgeAt e).clauseId = (g.edgeAt e).clauseId ∧
        (gf.edgeAt e).varId = (g.edgeAt e).varId ∧
        (gf.edgeAt e).type = (g.edgeAt e).type) ∧
      (∀ e, (gf.edgeAt e).enabled = true → (g.edgeAt e).enabled = true) ∧
      (∀ c2, (gf.clauseAt c2).enabled = true → (g.clauseAt c2).enabled = true) ∧
      (∀ c2, c2 ∉ cs → gf.clauseAt c2 = g.clauseAt c2) ∧
      (∀ e, (g.edgeAt e).clauseId ∉ cs → gf.edgeAt e = g.edgeAt e) ∧
      (∀ c ∈ cs, (gf.clauseAt c).enabled = true →
        gf.clauseEnabledEdges c ≠ [] ∧
        (∀ e ∈ g.clauseEnabledEdges c,
          (g.varAt (g.edgeAt e).varId).assigned = true →
          (gf.edgeAt e).enabled = false)) := by
  intro cs
  induction cs with
  | nil =>
    intro g gf h _ _
    injection h with h1
    subst h1
    exact ⟨rfl, rfl, rfl, fun _ => ⟨rfl, rfl, rfl⟩, fun _ h => h, fun _ h => h,
      fun _ _ => rfl, fun _ _ => rfl, fun c hc => absurd hc (List.not_mem_nil c)⟩
  | cons c rest ih =>
    intro g gf h hen hnd
    rw [cleanClauses] at h
    split at h
    · exact Option.noConfusion h
    · rename_i hguard
      have hes : ∀ e ∈ g.clauseEnabledEdges c, (g.edgeAt e).clauseId = c := by
        intro e he
        exact ((FactorGraph.mem_clauseEnabledEdges g c e).mp he).2.2
      obtain ⟨f1, f2, f3, f4, f5, f6, f7⟩ :=
        cleanClauseEdges_frame (g.clauseEnabledEdges c) g c hes
      have hcrest : c ∉ rest := (List.nodup_cons.mp hnd).1
      have hen2 : ∀ c2 ∈ rest,
          ((cleanClauseEdges g c (g.clauseEnabledEdges c)).clauseAt c2).enabled = true := by
        intro c2 hc2
        have hne : c2 ≠ c := fun hcc => hcrest (hcc ▸ hc2)
        rw [f4 c2 hne]
        exact hen c2 (List.mem_cons_of_mem _ hc2)
      obtain ⟨i1, i2, i3, i4, i5, i6, i7, i8, i9⟩ :=
        ih (cleanClauseEdges g c (g.clauseEnabledEdges c)) gf h hen2
          (List.nodup_cons.mp hnd).2
      have ef : ∀ e,
          ((cleanClauseEdges g c (g.clauseEnabledEdges c)).edgeAt e).clauseId =
            (g.edgeAt e).clauseId ∧
          ((cleanClauseEdges g c (g.clauseEnabledEdges c)).edgeAt e).varId =
            (g.edgeAt e).varId ∧
          ((cleanClauseEdges g c (g.clauseEnabledEdges c)).edgeAt e).type =
            (g.edgeAt e).type := by
        intro e
        rcases f6 e with hc6 | hc6 <;> rw [hc6] <;> exact ⟨rfl, rfl, rfl⟩
      have eMono : ∀ e,
          ((cleanClauseEdges g c (g.clauseEnabledEdges c)).edgeAt e).enabled = true →
            (g.edgeAt e).enabled = true := by
        intro e he
        rcases f6 e with hc6 | hc6
        · rw [hc6] at he
          exact he
        · rw [hc6] at he
          exact Bool.noConfusion he
      have cMono : ∀ c2,
          ((cleanClauseEdges g c (g.clauseEnabledEdges c)).clauseAt c2).enabled = true →
            (g.clauseAt c2).enabled = true := by
        intro c2 hc2
        by_cases hcc : c2 = c
        · subst hcc
          rcases f7 with hc7 | hc7
          · rw [hc7] at hc2
            exact hc2
          · rw [hc7] at hc2
            exact Bool.noConfusion hc2
        · rw [f4 c2 hcc] at hc2
          exact hc2
      refine ⟨i1.trans f1, i2.trans f2, i3.trans f3, ?_, ?_, ?_, ?_, ?_, ?_⟩
      · intro e
        obtain ⟨a1, a2, a3⟩ := i4 e
        obtain ⟨b1, b2, b3⟩ := ef e
        exact ⟨a1.trans b1, a2.trans b2, a3.trans b3⟩
      · intro e he
        exact eMono e (i5 e he)
      · intro c2 hc2
        exact cMono c2 (i6 c2 hc2)
      · intro c2 hc2
        have hne : c2 ≠ c := fun hcc => hc2 (hcc ▸ List.mem_cons_self c rest)
        have hnr : c2 ∉ rest := fun hr => hc2 (List.mem_cons_of_mem _ hr)
        rw [i7 c2 hnr, f4 c2 hne]
      · intro e he
        have hne : (g.edgeAt e).clauseId ≠ c :=
          fun hcc => he (hcc ▸ List.mem_cons_self c rest)
        have hnr : (g.edgeAt e).clauseId ∉ rest :=
          fun hr => he (List.mem_cons_of_mem _ hr)
        have h51 := f5 e hne
        have hid : ((cleanClauseEdges g c (g.clauseEnabledEdges c)).edgeAt e).clauseId =
            (g.edgeAt e).clauseId := (ef e).1
        rw [i8 e (by rw [hid]; exact hnr), h51]
      · intro c0 hc0 hcen
        rcases List.mem_cons.mp hc0 with rfl | hc0r
        · -- the head clause
          have hg1en : ((cleanClauseEdges g c0 (g.clauseEnabledEdges c0)).clauseAt c0).enabled = true :=
            i6 c0 hcen
          have hlen0 : ((cleanClauseEdges g c0 (g.clauseEnabledEdges c0)).clauseEnabledEdges c0).length ≠ 0 := by
            intro hl
            apply hguard
            rw [hg1en, Bool.true_and]
            simpa using hl
          have hsame : gf.clauseEnabledEdges c0 =
              (cleanClauseEdges g c0 (g.clauseEnabledEdges c0)).clauseEnabledEdges c0 := by
            refine FactorGraph.clauseEnabledEdges_eq_of _ gf c0 i2 (fun e => (i4 e).1) ?_
            intro e hce
            exact i8 e (by rw [hce]; exact hcrest)
          constructor
          · rw [hsame]
            intro hnil
            exact hlen0 (by rw [hnil]; rfl)
          · intro e he hasg
            have hpost := cleanClauseEdges_post (g.clauseEnabledEdges c0) g c0 hes
              hg1en e he hasg
            by_contra hne
            rw [Bool.not_eq_false] at hne
            rw [i5 e hne] at hpost
            exact Bool.noConfusion hpost
        · -- a clause of the tail
          have hne : c0 ≠ c := fun hcc => hcrest (hcc ▸ hc0r)
          obtain ⟨j1, j2⟩ := i9 c0 hc0r hcen
          refine ⟨j1, ?_⟩
          intro e he hasg
          have hrec : ∀ e2, (g.edgeAt e2).clauseId = c0 →
              (cleanClauseEdges g c (g.clauseEnabledEdges c)).edgeAt e2 = g.edgeAt e2 := by
            intro e2 hce2
            exact f5 e2 (by rw [hce2]; exact hne)
          have hsame : (cleanClauseEdges g c (g.clauseEnabledEdges c)).clauseEnabledEdges c0 =
              g.clauseEnabledEdges c0 :=
            FactorGraph.clauseEnabledEdges_eq_of g _ c0 f2 (fun e2 => (ef e2).1) hrec
          have hmem2 : e ∈ (cleanClauseEdges g c (g.clauseEnabledEdges c)).clauseEnabledEdges c0 := by
            rw [hsame]
            exact he
          have heq : (cleanClauseEdges g c (g.clauseEnabledEdges c)).edgeAt e = g.edgeAt e :=
            hrec e ((FactorGraph.mem_clauseEnabledEdges g c0 e).mp he).2.2
          have hasg2 : ((cleanClauseEdges g c (g.clauseEnabledEdges c)).varAt
              ((cleanClauseEdges g c (g.clauseEnabledEdges c)).edgeAt e).varId).assigned = true := by
            rw [heq]
            show ((cleanClauseEdges g c (g.clauseEnabledEdges c)).varAt (g.edgeAt e).varId).assigned = true
            rw [show (cleanClauseEdges g c (g.clauseEnabledEdges c)).varAt (g.edgeAt e).varId =
              g.varAt (g.edgeAt e).varId from by unfold FactorGraph.varAt; rw [f1]]
            exact hasg
          exact j2 e hmem2 hasg2

/-- At a `success` return the state is unchanged and there are no unit
clauses. -/
theorem upIteration_success_eq (g g' : FactorGraph)
    (h : upIteration g = .success g') : g' = g ∧ unitClauses g = [] := by
  simp only [upIteration] at h
  split at h
  · rename_i hemp
    injection h with h1
    exact ⟨h1.symm, List.isEmpty_iff.mp hemp⟩
  · split at h
    · exact UPStep.noConfusion h
    · split at h
      · exact UPStep.noConfusion h
      · exact UPStep.noConfusion h

/-- At a `next` step the iteration performed the unit assignments and a
full clause cleanup. -/
theorem upIteration_next_spec (g g' : FactorGraph) (h : upIteration g = .next g') :
    ∃ g₁, assignUnits g (unitClauses g) = some g₁ ∧
      cleanClauses g₁ g₁.GetEnabledClauses = some g' ∧ unitClauses g ≠ [] := by
  simp only [upIteration] at h
  split at h
  · exact UPStep.noConfusion h
  · rename_i hemp
    split at h
    · exact UPStep.noConfusion h
    · rename_i g₁ hassign
      split at h
      · exact UPStep.noConfusion h
      · rename_i g₂ hclean
        injection h with h1
        subst h1
        exact ⟨g₁, hassign, hclean, fun hnil => hemp (by rw [hnil]; rfl)⟩

/-- A unit clause is an enabled clause whose enabled-edge view is exactly
the singleton of its unit edge. -/
theorem mem_unitClauses (g : FactorGraph) (u : Nat × Nat) (h : u ∈ unitClauses g) :
    (g.clauseAt u.1).enabled = true ∧ u.1 < g.clauses.length ∧
      g.clauseEnabledEdges u.1 = [u.2] := by
  unfold unitClauses at h
  rw [List.mem_filterMap] at h
  obtain ⟨c, hc, hmatch⟩ := h
  obtain ⟨hlt, hen⟩ := (FactorGraph.mem_GetEnabledClauses g c).mp hc
  rcases hl : g.clauseEnabledEdges c with _ | ⟨e, rest⟩
  · rw [hl] at hmatch
    exact Option.noConfusion hmatch
  · rcases rest with _ | ⟨e2, rest2⟩
    · rw [hl] at hmatch
      injection hmatch with h1
      subst h1
      exact ⟨hen, hlt, hl⟩
    · rw [hl] at hmatch
      exact Option.noConfusion hmatch

/-- After a `next` step, no enabled clause is empty and no enabled edge of
an enabled clause has an assigned variable at all. -/
theorem upIteration_next_invariants (g g' : FactorGraph)
    (h : upIteration g = .next g') :
    noEmptyClause g' ∧
    (∀ e, (g'.edgeAt e).enabled = true →
      (g'.clauseAt (g'.edgeAt e).clauseId).enabled = true →
      (g'.varAt (g'.edgeAt e).varId).assigned = false) := by
  obtain ⟨g₁, hassign, hclean, _⟩ := upIteration_next_spec g g' h
  have hen : ∀ c ∈ g₁.GetEnabledClauses, (g₁.clauseAt c).enabled = true :=
    fun c hc => ((FactorGraph.mem_GetEnabledClauses g₁ c).mp hc).2
  have hnd : g₁.GetEnabledClauses.Nodup := (List.nodup_range _).filter _
  obtain ⟨s1, s2, s3, s4, s5, s6, s7, s8, s9⟩ :=
    cleanClauses_spec g₁.GetEnabledClauses g₁ g' hclean hen hnd
  constructor
  · intro c hcen
    have hg1 : (g₁.clauseAt c).enabled = true := s6 c hcen
    have hclt : c < g₁.clauses.length := FactorGraph.clauseAt_enabled_lt g₁ c hg1
    have hmem : c ∈ g₁.GetEnabledClauses :=
      (FactorGraph.mem_GetEnabledClauses g₁ c).mpr ⟨hclt, hg1⟩
    exact (s9 c hmem hcen).1
  · intro e hee hce
    by_contra hasg
    rw [Bool.not_eq_false] at hasg
    have he1 : (g₁.edgeAt e).enabled = true := s5 e hee
    have hid : (g₁.edgeAt e).clauseId = (g'.edgeAt e).clauseId := ((s4 e).1).symm
    have hc1 : (g₁.clauseAt (g₁.edgeAt e).clauseId).enabled = true := by
      rw [hid]
      exact s6 _ hce
    have hclt : (g₁.edgeAt e).clauseId < g₁.clauses.length :=
      FactorGraph.clauseAt_enabled_lt _ _ hc1
    have hmem : (g₁.edgeAt e).clauseId ∈ g₁.GetEnabledClauses :=
      (FactorGraph.mem_GetEnabledClauses g₁ _).mpr ⟨hclt, hc1⟩
    have helt : e < g₁.edges.length := FactorGraph.edgeAt_enabled_lt g₁ e he1
    have hemem : e ∈ g₁.clauseEnabledEdges (g₁.edgeAt e).clauseId :=
      (FactorGraph.mem_clauseEnabledEdges _ _ _).mpr ⟨helt, he1, rfl⟩
    have hasg1 : (g₁.varAt (g₁.edgeAt e).varId).assigned = true := by
      have hv : (g₁.edgeAt e).varId = (g'.edgeAt e).varId := ((s4 e).2.1).symm
      rw [hv]
      rw [show g₁.varAt (g'.edgeAt e).varId = g'.varAt (g'.edgeAt e).varId from by
        unfold FactorGraph.varAt
        rw [s1]]
      exact hasg
    have hcen2 : (g'.clauseAt (g₁.edgeAt e).clauseId).enabled = true := by
      rw [hid]
      exact hce
    have hdis := (s9 _ hmem hcen2).2 e hemem hasg1
    rw [hdis] at hee
    exact Bool.noConfusion hee

/-- Invariant propagation through the fueled outer loop. -/
theorem upRun_success_invariants :
    ∀ (fuel : Nat) (g gf : FactorGraph), upRun fuel g = some (true, gf) →
      noEmptyClause g → noConflict g → noEmptyClause gf ∧ noConflict gf := by
  intro fuel
  induction fuel with
  | zero =>
    intro g gf h
    exact Option.noConfusion h
  | succ fuel ih =>
    intro g gf h h1 h2
    rw [upRun] at h
    split at h
    · rename_i g₁ hstep
      injection h with hp
      injection hp with hb hg
      obtain ⟨hgg, _⟩ := upIteration_success_eq g g₁ hstep
      subst hgg
      subst hg
      exact ⟨h1, h2⟩
    · rename_i g₁ hstep
      injection h with hp
      injection hp with hb hg
      exact Bool.noConfusion hb
    · rename_i g₁ hstep
      obtain ⟨hne, hstrong⟩ := upIteration_next_invariants g g₁ hstep
      refine ih g₁ gf h hne ?_
      intro e hee hce hasg
      rw [hstrong e hee hce] at hasg
      exact Bool.noConfusion hasg

/-- C2, amended: whenever `UnitPropagation` returns success on a state that
itself has no empty enabled clause and no conflicting assigned enabled
edge, the resulting state again has no enabled clause with zero enabled
edges and no assigned variable conflicting with a remaining enabled edge
of an enabled clause. -/
theorem unitPropagation_success_invariants (g gf : FactorGraph)
    (h : UnitPropagation g = some (true, gf))
    (h1 : noEmptyClause g) (h2 : noConflict g) :
    noEmptyClause gf ∧ noConflict gf :=
  upRun_success_invariants (upMeasure g + 1) g gf h h1 h2

/-- Counterexample to C2 as stated: on a graph whose single clause is
enabled with zero enabled edges, `UnitPropagation` returns success at once
(an empty clause is not a unit clause), leaving an enabled clause with zero
enabled edges. -/
theorem up_postcondition_claim_false :
    UnitPropagation gEmptyClause = some (true, gEmptyClause) ∧
    (gEmptyClause.clauseAt 0).enabled = true ∧
    gEmptyClause.clauseEnabledEdges 0 = [] := by
  refine ⟨?_, ?_, ?_⟩ <;> with_unfolding_all rfl

/-- Witness for the amended C2 on the concrete input `gUP`. -/
theorem unitPropagation_success_invariants_witness :
    UnitPropagation gUP = some (true, gUPnext) ∧
    (noEmptyClause gUPnext ∧ noConflict gUPnext) := by
  have h : UnitPropagation gUP = some (true, gUPnext) := by
    with_unfolding_all rfl
  have h1 : noEmptyClause gUP := by
    intro c hc
    have hlt : c < gUP.clauses.length := FactorGraph.clauseAt_enabled_lt gUP c hc
    have h2 : gUP.clauses.length = 2 := by with_unfolding_all rfl
    rw [h2] at hlt
    have : c = 0 ∨ c = 1 := by omega
    rcases this with rfl | rfl
    · intro hnil
      have : gUP.clauseEnabledEdges 0 = [0] := by with_unfolding_all rfl
      rw [this] at hnil
      exact List.noConfusion hnil
    · intro hnil
      have : gUP.clauseEnabledEdges 1 = [1, 2] := by with_unfolding_all rfl
      rw [this] at hnil
      exact List.noConfusion hnil
  have h2 : noConflict gUP := by
    intro e he _
    have helt : e < gUP.edges.length := FactorGraph.edgeAt_enabled_lt gUP e he
    have h3 : gUP.edges.length = 3 := by with_unfolding_all rfl
    rw [h3] at helt
    have : e = 0 ∨ e = 1 ∨ e = 2 := by omega
    rcases this with rfl | rfl | rfl
    · intro hasg
      have hf : (gUP.varAt (gUP.edgeAt 0).varId).assigned = false := by
        with_unfolding_all rfl
      rw [hf] at hasg
      exact Bool.noConfusion hasg
    · intro hasg
      have hf : (gUP.varAt (gUP.edgeAt 1).varId).assigned = false := by
        with_unfolding_all rfl
      rw [hf] at hasg
      exact Bool.noConfusion hasg
    · intro hasg
      have hf : (gUP.varAt (gUP.edgeAt 2).varId).assigned = false := by
        with_unfolding_all rfl
      rw [hf] at hasg
      exact Bool.noConfusion hasg
  exact ⟨h, unitPropagation_success_invariants gUP gUPnext h h1 h2⟩

/-- The measure decrease behind spec §4.4's termination argument: a
non-returning iteration strictly decreases the number of enabled edges or
the number of unassigned variables. -/
theorem upIteration_next_decreases (g g' : FactorGraph) (hwf : wellFormed g)
    (h : upIteration g = .next g') :
    enabledEdgeCount g' < enabledEdgeCount g ∨
      unassignedCount g' < unassignedCount g := by
  obtain ⟨g₁, hassign, hclean, hne⟩ := upIteration_next_spec g g' h
  obtain ⟨af1, af2, af3, af4⟩ := assignUnits_frame _ g g₁ hassign
  have hen : ∀ c ∈ g₁.GetEnabledClauses, (g₁.clauseAt c).enabled = true :=
    fun c hc => ((FactorGraph.mem_GetEnabledClauses g₁ c).mp hc).2
  have hnd : g₁.GetEnabledClauses.Nodup := (List.nodup_range _).filter _
  obtain ⟨s1, s2, s3, s4, s5, s6, s7, s8, s9⟩ :=
    cleanClauses_spec g₁.GetEnabledClauses g₁ g' hclean hen hnd
  rcases Classical.em (∃ u ∈ unitClauses g,
      (g.varAt (g.edgeAt u.2).varId).assigned = false) with hex | hnex
  · right
    have hrange : ∀ u ∈ unitClauses g, (g.edgeAt u.2).varId < g.vars.length := by
      intro u hu
      obtain ⟨_, _, hl⟩ := mem_unitClauses g u hu
      have hm : u.2 ∈ g.clauseEnabledEdges u.1 := by
        rw [hl]
        exact List.mem_singleton_self u.2
      have hlt := ((FactorGraph.mem_clauseEnabledEdges g u.1 u.2).mp hm).1
      exact (hwf u.2 hlt).1
    have hlt := assignUnits_unassigned_lt _ g g₁ hassign hrange hex
    have huC : unassignedCount g' = unassignedCount g₁ := by
      unfold unassignedCount FactorGraph.GetUnassignedVariables FactorGraph.varAt
      rw [s1]
    rw [huC]
    exact hlt
  · left
    have hall : ∀ u ∈ unitClauses g, (g.varAt (g.edgeAt u.2).varId).assigned = true := by
      intro u hu
      by_contra hcf
      rw [Bool.not_eq_true] at hcf
      exact hnex ⟨u, hu, hcf⟩
    obtain ⟨hid, hsat⟩ := assignUnits_all_assigned _ g g₁ hassign hall
    rw [hid] at s1 s2 s3 s4 s5 s6 s7 s8 s9
    rcases hu0 : unitClauses g with _ | ⟨u, us⟩
    · exact absurd hu0 hne
    · have humem : u ∈ unitClauses g := by
        rw [hu0]
        exact List.mem_cons_self u us
      obtain ⟨hcen, hclt, hl⟩ := mem_unitClauses g u humem
      have hm : u.2 ∈ g.clauseEnabledEdges u.1 := by
        rw [hl]
        exact List.mem_singleton_self u.2
      obtain ⟨helt, heen, hecl⟩ := (FactorGraph.mem_clauseEnabledEdges g u.1 u.2).mp hm
      have hasg : (g.varAt (g.edgeAt u.2).varId).assigned = true := hall u humem
      have hcmem : u.1 ∈ g.GetEnabledClauses :=
        (FactorGraph.mem_GetEnabledClauses g u.1).mpr ⟨hclt, hcen⟩
      have hdis : (g'.clauseAt u.1).enabled = false := by
        by_contra hcf
        rw [Bool.not_eq_false] at hcf
        obtain ⟨hnonempty, hdisabled⟩ := s9 u.1 hcmem hcf
        have he0dis : (g'.edgeAt u.2).enabled = false := hdisabled u.2 hm hasg
        obtain ⟨e1, he1⟩ := List.exists_mem_of_ne_nil _ hnonempty
        obtain ⟨he1lt, he1en, he1cl⟩ :=
          (FactorGraph.mem_clauseEnabledEdges g' u.1 e1).mp he1
        have he1g : e1 ∈ g.clauseEnabledEdges u.1 := by
          refine (FactorGraph.mem_clauseEnabledEdges g u.1 e1).mpr
            ⟨?_, s5 e1 he1en, ?_⟩
          · rw [← s2]
            exact he1lt
          · rw [← (s4 e1).1]
            exact he1cl
        rw [hl] at he1g
        have he1e0 : e1 = u.2 := List.mem_singleton.mp he1g
        rw [he1e0, he0dis] at he1en
        exact Bool.noConfusion he1en
      unfold enabledEdgeCount FactorGraph.GetEnabledEdges
      rw [← List.countP_eq_length_filter, ← List.countP_eq_length_filter, s2]
      refine countP_lt_countP _ _ _ ?_ u.2 (List.mem_range.mpr helt) ?_ ?_
      · intro e _ hep
        unfold FactorGraph.edgeEnabledB at hep ⊢
        rw [Bool.and_eq_true] at hep ⊢
        obtain ⟨hp1, hp2⟩ := hep
        refine ⟨s5 e hp1, ?_⟩
        have h3 := s6 _ hp2
        rwa [(s4 e).1] at h3
      · unfold FactorGraph.edgeEnabledB
        rw [Bool.and_eq_true]
        refine ⟨heen, ?_⟩
        rw [hecl]
        exact hcen
      · unfold FactorGraph.edgeEnabledB
        have hcl2 : (g'.edgeAt u.2).clauseId = u.1 := by
          rw [(s4 u.2).1, hecl]
        rw [hcl2, hdis, Bool.and_false]

/-- Neither count ever grows across a non-returning iteration. -/
theorem upIteration_next_le (g g' : FactorGraph) (h : upIteration g = .next g') :
    enabledEdgeCount g' ≤ enabledEdgeCount g ∧
      unassignedCount g' ≤ unassignedCount g := by
  obtain ⟨g₁, hassign, hclean, _⟩ := upIteration_next_spec g g' h
  obtain ⟨af1, af2, af3, af4⟩ := assignUnits_frame _ g g₁ hassign
  have haeq : ∀ e, g₁.edgeAt e = g.edgeAt e := by
    intro e
    unfold FactorGraph.edgeAt
    rw [af1]
  have hceq : ∀ c, g₁.clauseAt c = g.clauseAt c := by
    intro c
    unfold FactorGraph.clauseAt
    rw [af2]
  have hen : ∀ c ∈ g₁.GetEnabledClauses, (g₁.clauseAt c).enabled = true :=
    fun c hc => ((FactorGraph.mem_GetEnabledClauses g₁ c).mp hc).2
  have hnd : g₁.GetEnabledClauses.Nodup := (List.nodup_range _).filter _
  obtain ⟨s1, s2, s3, s4, s5, s6, s7, s8, s9⟩ :=
    cleanClauses_spec g₁.GetEnabledClauses g₁ g' hclean hen hnd
  constructor
  · unfold enabledEdgeCount FactorGraph.GetEnabledEdges
    rw [← List.countP_eq_length_filter, ← List.countP_eq_length_filter, s2,
      show g₁.edges.length = g.edges.length from by rw [af1]]
    refine List.countP_mono_left ?_
    intro e _ hep
    unfold FactorGraph.edgeEnabledB at hep ⊢
    rw [Bool.and_eq_true] at hep ⊢
    obtain ⟨hp1, hp2⟩ := hep
    have hee := s5 e hp1
    rw [haeq e] at hee
    refine ⟨hee, ?_⟩
    have h3 := s6 _ hp2
    rw [(s4 e).1] at h3
    rw [haeq e] at h3
    rw [hceq _] at h3
    exact h3
  · have huC : unassignedCount g' = unassignedCount g₁ := by
      unfold unassignedCount FactorGraph.GetUnassignedVariables FactorGraph.varAt
      rw [s1]
    rw [huC]
    exact assignUnits_unassigned_le _ g g₁ hassign

/-- Well-formedness is preserved across a non-returning iteration. -/
theorem upIteration_next_wf (g g' : FactorGraph) (hwf : wellFormed g)
    (h : upIteration g = .next g') : wellFormed g' := by
  obtain ⟨g₁, hassign, hclean, _⟩ := upIteration_next_spec g g' h
  obtain ⟨af1, af2, af3, af4⟩ := assignUnits_frame _ g g₁ hassign
  have haeq : ∀ e, g₁.edgeAt e = g.edgeAt e := by
    intro e
    unfold FactorGraph.edgeAt
    rw [af1]
  have hen : ∀ c ∈ g₁.GetEnabledClauses, (g₁.clauseAt c).enabled = true :=
    fun c hc => ((FactorGraph.mem_GetEnabledClauses g₁ c).mp hc).2
  have hnd : g₁.GetEnabledClauses.Nodup := (List.nodup_range _).filter _
  obtain ⟨s1, s2, s3, s4, s5, s6, s7, s8, s9⟩ :=
    cleanClauses_spec g₁.GetEnabledClauses g₁ g' hclean hen hnd
  intro e he
  have h1 : e < g.edges.length := by
    rw [← show g₁.edges.length = g.edges.length from by rw [af1], ← s2]
    exact he
  obtain ⟨hv, hc⟩ := hwf e h1
  constructor
  · rw [(s4 e).2.1, haeq e]
    rw [show g'.vars.length = g.vars.length from by rw [s1]; exact af3]
    exact hv
  · rw [(s4 e).1, haeq e]
    rw [show g'.clauses.length = g.clauses.length from by
      rw [s3]
      rw [af2]]
    exact hc

/-- With enough fuel the outer loop always returns on well-formed
graphs. -/
theorem upRun_total :
    ∀ (fuel : Nat) (g : FactorGraph), wellFormed g → upMeasure g < fuel →
      (upRun fuel g).isSome = true := by
  intro fuel
  induction fuel with
  | zero =>
    intro g _ hm
    exact absurd hm (Nat.not_lt_zero _)
  | succ fuel ih =>
    intro g hwf hm
    rw [upRun]
    split
    · rfl
    · rfl
    · rename_i g₁ hstep
      refine ih g₁ (upIteration_next_wf g g₁ hwf hstep) ?_
      have hd := upIteration_next_decreases g g₁ hwf hstep
      have hl := upIteration_next_le g g₁ hstep
      unfold upMeasure at hm ⊢
      rcases hd with hd | hd <;> omega

/-- C8: `UnitPropagation` terminates on every factor graph: every
iteration of the outer loop that does not return strictly decreases the
number of enabled edges or the number of unassigned variables, and the
fueled loop therefore always returns. -/
theorem unitPropagation_terminates :
    (∀ g g', wellFormed g → upIteration g = UPStep.next g' →
      enabledEdgeCount g' < enabledEdgeCount g ∨
        unassignedCount g' < unassignedCount g) ∧
    (∀ g, wellFormed g → (UnitPropagation g).isSome = true) := by
  constructor
  · exact fun g g' hwf h => upIteration_next_decreases g g' hwf h
  · intro g hwf
    exact upRun_total (upMeasure g + 1) g hwf (Nat.lt_succ_self _)

/-- Witness for C8 on the concrete input `gUP`. -/
theorem unitPropagation_terminates_witness :
    wellFormed gUP ∧ upIteration gUP = UPStep.next gUPnext ∧
    (enabledEdgeCount gUPnext < enabledEdgeCount gUP ∨
      unassignedCount gUPnext < unassignedCount gUP) ∧
    (UnitPropagation gUP).isSome = true := by
  have hwf : wellFormed gUP := by
    intro e he
    have h3 : gUP.edges.length = 3 := by with_unfolding_all rfl
    rw [h3] at he
    have he2 : e = 0 ∨ e = 1 ∨ e = 2 := by omega
    rcases he2 with rfl | rfl | rfl
    · exact ⟨by decide, by decide⟩
    · exact ⟨by decide, by decide⟩
    · exact ⟨by decide, by decide⟩
  have hnext : upIteration gUP = UPStep.next gUPnext := by
    with_unfolding_all rfl
  exact ⟨hwf, hnext, unitPropagation_terminates.1 gUP gUPnext hwf hnext,
    unitPropagation_terminates.2 gUP hwf⟩

/-- The Batteries rational floor agrees with the floor of the ordered
field. -/
theorem rat_floor_eq_floor (q : ℚ) : q.floor = ⌊q⌋ := by
  rw [Rat.floor_def', Rat.floor_def]

theorem varAt_eq_of_vars (g g1 : FactorGraph) (h : g1.vars = g.vars) (i : Nat) :
    g1.varAt i = g.varAt i := by
  unfold FactorGraph.varAt
  rw [h]

theorem edgeAt_assignVar (g : FactorGraph) (v : Nat) (b : Bool) (e : Nat) :
    (g.assignVar v b).edgeAt e = g.edgeAt e := rfl

theorem clauseAt_assignVar (g : FactorGraph) (v : Nat) (b : Bool) (c : Nat) :
    (g.assignVar v b).clauseAt c = g.clauseAt c := rfl

theorem aacStep_vars (b : Bool) (ga : FactorGraph) (e : Nat) :
    (aacStep b ga e).vars = ga.vars := by
  unfold aacStep
  split
  · rfl
  · rfl

theorem aacStep_edges_length (b : Bool) (ga : FactorGraph) (e : Nat) :
    (aacStep b ga e).edges.length = ga.edges.length := by
  unfold aacStep
  split
  · rfl
  · simp [FactorGraph.disableEdge]

theorem aacStep_clauses_length (b : Bool) (ga : FactorGraph) (e : Nat) :
    (aacStep b ga e).clauses.length = ga.clauses.length := by
  unfold aacStep
  split
  · simp [FactorGraph.disableClause]
  · rfl

/-- `aacStep` changes no identifying edge field. -/
theorem aacStep_fields (b : Bool) (ga : FactorGraph) (e i : Nat) :
    ((aacStep b ga e).edgeAt i).clauseId = (ga.edgeAt i).clauseId ∧
    ((aacStep b ga e).edgeAt i).varId = (ga.edgeAt i).varId ∧
    ((aacStep b ga e).edgeAt i).type = (ga.edgeAt i).type := by
  unfold aacStep
  split
  · exact ⟨rfl, rfl, rfl⟩
  · obtain ⟨h1, h2, h3, _⟩ := edgeAt_disableEdge_fields ga e i
    exact ⟨h1, h2, h3⟩

/-- `aacStep` never re-enables a clause. -/
theorem aacStep_clause_false (b : Bool) (ga : FactorGraph) (e c : Nat)
    (h : (ga.clauseAt c).enabled = false) :
    ((aacStep b ga e).clauseAt c).enabled = false := by
  unfold aacStep
  split
  · by_cases hc : c = (ga.edgeAt e).clauseId
    · rw [hc] at h ⊢
      by_cases hlen : (ga.edgeAt e).clauseId < ga.clauses.length
      · rw [FactorGraph.clauseAt_disableClause_self ga _ hlen]
      · rw [FactorGraph.disableClause_oob ga _ (Nat.le_of_not_lt hlen)]
        exact h
    · rw [FactorGraph.clauseAt_disableClause_ne ga _ c hc]
      exact h
  · exact h

/-- `aacStep` never re-enables an edge. -/
theorem aacStep_edge_false (b : Bool) (ga : FactorGraph) (e i : Nat)
    (h : (ga.edgeAt i).enabled = false) :
    ((aacStep b ga e).edgeAt i).enabled = false := by
  unfold aacStep
  split
  · exact h
  · by_cases hi : i = e
    · subst hi
      by_cases hlen : i < ga.edges.length
      · rw [FactorGraph.edgeAt_disableEdge_self ga i hlen]
      · rw [FactorGraph.disableEdge_oob ga i (Nat.le_of_not_lt hlen)]
        exact h
    · rw [FactorGraph.edgeAt_disableEdge_ne ga e i hi]
      exact h

/-- The immediate effect of one `aacStep`: a satisfied literal's clause,
respectively a falsified edge, ends up disabled. -/
theorem aacStep_head (b : Bool) (ga : FactorGraph) (e : Nat) :
    if (ga.edgeAt e).type == b
    then ((aacStep b ga e).clauseAt (ga.edgeAt e).clauseId).enabled = false
    else ((aacStep b ga e).edgeAt e).enabled = false := by
  by_cases hb : ((ga.edgeAt e).type == b) = true
  · rw [if_pos hb]
    unfold aacStep
    rw [if_pos hb]
    by_cases hlen : (ga.edgeAt e).clauseId < ga.clauses.length
    · rw [FactorGraph.clauseAt_disableClause_self ga _ hlen]
    · rw [FactorGraph.disableClause_oob ga _ (Nat.le_of_not_lt hlen),
        FactorGraph.clauseAt_oob ga _ (Nat.le_of_not_lt hlen)]
      rfl
  · rw [if_neg hb]
    unfold aacStep
    rw [if_neg hb]
    by_cases hlen : e < ga.edges.length
    · rw [FactorGraph.edgeAt_disableEdge_self ga e hlen]
    · rw [FactorGraph.disableEdge_oob ga e (Nat.le_of_not_lt hlen),
        FactorGraph.edgeAt_oob ga e (Nat.le_of_not_lt hlen)]
      rfl

/-- Invariants of the edge-cleaning fold of `assignAndClean`: variables
untouched, arena lengths kept, identifying edge fields kept, disabledness
preserved, and every edge of the snapshot is cleaned as the spec says. -/
theorem aacFold_spec (b : Bool) :
    ∀ (es : List Nat) (gx : FactorGraph),
      (es.foldl (aacStep b) gx).vars = gx.vars ∧
      (es.foldl (aacStep b) gx).edges.length = gx.edges.length ∧
      (es.foldl (aacStep b) gx).clauses.length = gx.clauses.length ∧
      (∀ i, ((es.foldl (aacStep b) gx).edgeAt i).clauseId = (gx.edgeAt i).clauseId ∧
        ((es.foldl (aacStep b) gx).edgeAt i).varId = (gx.edgeAt i).varId ∧
        ((es.foldl (aacStep b) gx).edgeAt i).type = (gx.edgeAt i).type) ∧
      (∀ c, (gx.clauseAt c).enabled = false →
        ((es.foldl (aacStep b) gx).clauseAt c).enabled = false) ∧
      (∀ i, (gx.edgeAt i).enabled = false →
        ((es.foldl (aacStep b) gx).edgeAt i).enabled = false) ∧
      (∀ e ∈ es,
        if (gx.edgeAt e).type == b
        then ((es.foldl (aacStep b) gx).clauseAt (gx.edgeAt e).clauseId).enabled = false
        else ((es.foldl (aacStep b) gx).edgeAt e).enabled = false) := by
  intro es
  induction es with
  | nil =>
    intro gx
    exact ⟨rfl, rfl, rfl, fun _ => ⟨rfl, rfl, rfl⟩, fun _ h => h, fun _ h => h,
      fun e he => absurd he (List.not_mem_nil e)⟩
  | cons e0 rest ih =>
    intro gx
    rw [List.foldl_cons]
    obtain ⟨i1, i2, i3, i4, i5, i6, i7⟩ := ih (aacStep b gx e0)
    refine ⟨?_, ?_, ?_, ?_, ?_, ?_, ?_⟩
    · rw [i1, aacStep_vars]
    · rw [i2, aacStep_edges_length]
    · rw [i3, aacStep_clauses_length]
    · intro i
      obtain ⟨f1, f2, f3⟩ := aacStep_fields b gx e0 i
      exact ⟨(i4 i).1.trans f1, (i4 i).2.1.trans f2, (i4 i).2.2.trans f3⟩
    · intro c hc
      exact i5 c (aacStep_clause_false b gx e0 c hc)
    · intro i hi
      exact i6 i (aacStep_edge_false b gx e0 i hi)
    · intro e he
      rcases List.mem_cons.mp he with rfl | he2
      · have hh := aacStep_head b gx e
        by_cases hb2 : ((gx.edgeAt e).type == b) = true
        · rw [if_pos hb2] at hh ⊢
          exact i5 _ hh
        · rw [if_neg hb2] at hh ⊢
          exact i6 _ hh
      · have hmem := i7 e he2
        obtain ⟨f1, _, f3⟩ := aacStep_fields b gx e0 e
        rw [f1, f3] at hmem
        exact hmem

/-- `assignAndClean` rewritten as its assignment followed by the cleaning
fold. -/
theorem assignAndClean_eq (g : FactorGraph) (v : Nat) :
    assignAndClean g v =
      (g.varEnabledEdges v).foldl (aacStep (decide (0 < (g.varAt v).evalValue)))
        (g.assignVar v (decide (0 < (g.varAt v).evalValue))) := rfl

/-- On the variable arena, `assignAndClean` is exactly the assignment. -/
theorem assignAndClean_varAt (g : FactorGraph) (v i : Nat) :
    (assignAndClean g v).varAt i =
      (g.assignVar v (decide (0 < (g.varAt v).evalValue))).varAt i := by
  rw [assignAndClean_eq]
  exact varAt_eq_of_vars _ _ (aacFold_spec _ _ _).1 i

theorem assignAndClean_vars_length (g : FactorGraph) (v : Nat) :
    (assignAndClean g v).vars.length = g.vars.length := by
  rw [assignAndClean_eq, (aacFold_spec _ _ _).1]
  unfold FactorGraph.assignVar
  simp

/-- The edge-cleaning clause of spec §4.6 step 4, for one assigned
variable: over the snapshot of its enabled incident edges, a literal of
the assigned polarity disables its clause and any other one is itself
disabled. -/
theorem assignAndClean_edges (g : FactorGraph) (v : Nat) :
    ∀ e ∈ g.varEnabledEdges v,
      if (g.edgeAt e).type == decide (0 < (g.varAt v).evalValue)
      then ((assignAndClean g v).clauseAt (g.edgeAt e).clauseId).enabled = false
      else ((assignAndClean g v).edgeAt e).enabled = false := by
  intro e he
  rw [assignAndClean_eq]
  exact (aacFold_spec (decide (0 < (g.varAt v).evalValue))
    (g.varEnabledEdges v) (g.assignVar v (decide (0 < (g.varAt v).evalValue)))).2.2.2.2.2.2
    e he

/-- Invariants of the decimation assignment fold: variable-arena length and
all `evalValue`s kept, unselected variables untouched, every selected
in-range variable assigned to the sign of its `evalValue`. -/
theorem decimFold_spec :
    ∀ (vs : List Nat) (gx : FactorGraph),
      (vs.foldl assignAndClean gx).vars.length = gx.vars.length ∧
      (∀ i, ((vs.foldl assignAndClean gx).varAt i).evalValue = (gx.varAt i).evalValue) ∧
      (∀ i, i ∉ vs → (vs.foldl assignAndClean gx).varAt i = gx.varAt i) ∧
      (∀ v ∈ vs, v < gx.vars.length →
        ((vs.foldl assignAndClean gx).varAt v).assigned = true ∧
        ((vs.foldl assignAndClean gx).varAt v).value =
          decide (0 < (gx.varAt v).evalValue)) := by
  intro vs
  induction vs with
  | nil =>
    intro gx
    exact ⟨rfl, fun _ => rfl, fun _ _ => rfl, fun v hv => absurd hv (List.not_mem_nil v)⟩
  | cons v0 rest ih =>
    intro gx
    rw [List.foldl_cons]
    obtain ⟨i1, i2, i3, i4⟩ := ih (assignAndClean gx v0)
    have hblen : (assignAndClean gx v0).vars.length = gx.vars.length :=
      assignAndClean_vars_length gx v0
    have hstep := assignAndClean_varAt gx v0
    refine ⟨i1.trans hblen, ?_, ?_, ?_⟩
    · intro i
      rw [i2 i, hstep i, FactorGraph.varAt_assignVar_evalValue]
    · intro i hi
      rw [List.mem_cons, not_or] at hi
      rw [i3 i hi.2, hstep i, FactorGraph.varAt_assignVar_ne gx v0 _ i hi.1]
    · intro v hv hvlen
      rcases List.mem_cons.mp hv with rfl | hv2
      · by_cases hmem : v ∈ rest
        · have h4 := i4 v hmem (by rw [hblen]; exact hvlen)
          refine ⟨h4.1, ?_⟩
          rw [h4.2, hstep v, FactorGraph.varAt_assignVar_evalValue]
        · have h3 := i3 v hmem
          rw [h3, hstep v, FactorGraph.varAt_assignVar_self gx v _ hvlen]
          exact ⟨rfl, rfl⟩
      · have h4 := i4 v hv2 (by rw [hblen]; exact hvlen)
        refine ⟨h4.1, ?_⟩
        rw [h4.2, hstep v, FactorGraph.varAt_assignVar_evalValue]

/-- C6: a decimation step of `SID` (`Algorithms.cpp` lines 299-320) with
`n` unassigned variables and `fraction ≤ 1` assigns exactly
`k = max 1 ⌊n·fraction⌋` variables: the `k` unassigned variables of
largest `|evalValue|` in the descending order realised by the sort, each
set to `true` iff its `evalValue` is positive, all other variable records
untouched; and each assignment walks the snapshot of the variable's
enabled incident edges, disabling the clause of every edge whose literal
type equals the assigned value and disabling every other such edge
itself. -/
theorem decimate_step_spec (g : FactorGraph) (fraction : ℚ)
    (hf1 : fraction ≤ 1) (hne : g.GetUnassignedVariables ≠ []) :
    decimStepSpec g fraction := by
  simp only [decimStepSpec]
  have hn1 : 1 ≤ g.GetUnassignedVariables.length := List.length_pos.mpr hne
  have hperm := List.perm_insertionSort (decimOrder g) g.GetUnassignedVariables
  have hsorted := List.sorted_insertionSort (decimOrder g) g.GetUnassignedVariables
  have hfloor : ((g.GetUnassignedVariables.length : ℚ) * fraction).floor.toNat ≤
      g.GetUnassignedVariables.length := by
    have hmul : (g.GetUnassignedVariables.length : ℚ) * fraction ≤
        (g.GetUnassignedVariables.length : ℚ) := by
      calc (g.GetUnassignedVariables.length : ℚ) * fraction
          ≤ (g.GetUnassignedVariables.length : ℚ) * 1 :=
            mul_le_mul_of_nonneg_left hf1 (by positivity)
      _ = (g.GetUnassignedVariables.length : ℚ) := mul_one _
    have hfl : ((g.GetUnassignedVariables.length : ℚ) * fraction).floor ≤
        (g.GetUnassignedVariables.length : ℤ) := by
      rw [rat_floor_eq_floor]
      calc ⌊(g.GetUnassignedVariables.length : ℚ) * fraction⌋
          ≤ ⌊(g.GetUnassignedVariables.length : ℚ)⌋ := Int.floor_mono hmul
      _ = (g.GetUnassignedVariables.length : ℤ) := Int.floor_natCast _
    exact Int.toNat_le.mpr hfl
  have hk : max 1 (((g.GetUnassignedVariables.length : ℚ) * fraction).floor.toNat) ≤
      g.GetUnassignedVariables.length := max_le hn1 hfloor
  have hund : g.GetUnassignedVariables.Nodup := (List.nodup_range _).filter _
  have hsnd : (g.GetUnassignedVariables.insertionSort (decimOrder g)).Nodup :=
    hperm.nodup_iff.mpr hund
  obtain ⟨d1, d2, d3, d4⟩ := decimFold_spec
    ((g.GetUnassignedVariables.insertionSort (decimOrder g)).take
      (max 1 (((g.GetUnassignedVariables.length : ℚ) * fraction).floor.toNat))) g
  refine ⟨hk, hperm, hsorted, ?_, ?_, ?_, ?_, ?_, ?_, ?_⟩
  · rw [List.length_take, hperm.length_eq]
    exact Nat.min_eq_left hk
  · exact List.Nodup.sublist (List.take_sublist _ _) hsnd
  · simp only [decimate]
    rw [if_neg (Nat.not_lt.mpr hk)]
  · intro a ha c hc
    have hsplit : List.Pairwise (decimOrder g)
        ((g.GetUnassignedVariables.insertionSort (decimOrder g)).take
            (max 1 (((g.GetUnassignedVariables.length : ℚ) * fraction).floor.toNat)) ++
          (g.GetUnassignedVariables.insertionSort (decimOrder g)).drop
            (max 1 (((g.GetUnassignedVariables.length : ℚ) * fraction).floor.toNat))) := by
      rw [List.take_append_drop]
      exact hsorted
    exact (List.pairwise_append.mp hsplit).2.2 a ha c hc
  · intro v hv
    have hvA : v ∈ g.GetUnassignedVariables :=
      hperm.mem_iff.mp (List.mem_of_mem_take hv)
    have hvA2 : v ∈ (List.range g.vars.length).filter
        (fun v => !(g.varAt v).assigned) := hvA
    obtain ⟨hvr, hvb⟩ := List.mem_filter.mp hvA2
    have hvlen : v < g.vars.length := List.mem_range.mp hvr
    have hvun : (g.varAt v).assigned = false := by
      simpa using hvb
    exact ⟨hvun, (d4 v hv hvlen).1, (d4 v hv hvlen).2⟩
  · exact d3
  · intro gx v e he
    exact assignAndClean_edges gx v e he

/-- Witness for C6 on the concrete graph `gDec` with fraction `0`. -/
theorem decimate_step_spec_witness :
    (0 : ℚ) ≤ 1 ∧ gDec.GetUnassignedVariables ≠ [] ∧ decimStepSpec gDec 0 :=
  ⟨by norm_num, by decide, decimate_step_spec gDec 0 (by norm_num) (by decide)⟩

end sat
